import Mathlib

/-!
# Verification of the RUIAN address widget (`src/ruian-widget.js`, class `RuianAddressWidget`, v1.1)

Shallow embedding of the widget's core logic in Lean 4.  JavaScript strings are
modelled by `String` with every operation defined structurally over the
underlying character list (so that all definitions evaluate by `decide`/`rfl`);
JS `null`/`undefined` are modelled by `Option`, and JS truthiness of nullable
strings/numbers by `truthyS`/`truthyN` (`""` and `0` are falsy).  Lower-casing
is modelled with `Char.toLower` (ASCII case folding), whitespace with
`Char.isWhitespace`; both agree with the JS semantics on the ASCII range.
Network responses are supplied by deterministic oracle functions.
-/

namespace Ruian

/-- JS truthiness of a nullable string: `null`/`undefined` and `""` are falsy. -/
def truthyS : Option String → Bool
  | none => false
  | some s => s != ""

/-- JS truthiness of a nullable number: `null`/`undefined` and `0` are falsy. -/
def truthyN : Option Nat → Bool
  | none => false
  | some n => n != 0

/-- JS `a || b` on nullable strings: returns `a` when truthy, else `b` (even if `b` is falsy). -/
def jsOr (a b : Option String) : Option String := if truthyS a then a else b

/-- JS `x || null` on nullable strings, as used in `mapToRuianPlace`. -/
def jsNullify (a : Option String) : Option String := if truthyS a then a else none

/-- JS `x || null` on nullable numbers. -/
def jsOrNullN (a : Option Nat) : Option Nat := if truthyN a then a else none

/-- Lower-casing, `s.toLowerCase()`; structural over the character list. -/
def sLower (s : String) : String := String.mk (s.data.map Char.toLower)

/-- Whitespace test used for `\s` in the widget's regexes. -/
def isWs (c : Char) : Bool := c.isWhitespace

/-- `s.trim()`. -/
def jsTrim (s : String) : String :=
  String.mk (((s.data.dropWhile isWs).reverse.dropWhile isWs).reverse)

/-- `s.replace(/\s/g, "")`: remove every whitespace character. -/
def stripWs (s : String) : String := String.mk (s.data.filter (fun c => !isWs c))

/-- `s.replace(/\D/g, "")`: keep only decimal digits. -/
def stripNonDigits (s : String) : String := String.mk (s.data.filter Char.isDigit)

/-- One step of `s.replace(/\s+/g, " ")`: collapse every whitespace run to a single space. -/
def collapseWs : List Char → List Char
  | [] => []
  | c :: cs =>
    let r := collapseWs cs
    if isWs c then
      match r with
      | [] => [' ']
      | d :: _ => if isWs d then r else ' ' :: r
    else c :: r

/-- The `normalize` helper of `handleInput`: `s.replace(/\s+/g, " ").trim()`. -/
def normalizeWs (s : String) : String := jsTrim (String.mk (collapseWs s.data))

/-- `hay.includes(needle)`: substring containment. -/
def jsIncludes (hay needle : String) : Bool := decide (needle.data <:+: hay.data)

/-- `value.split(c)` for a one-character separator, with JS semantics
(`"".split(",") = [""]`, empty segments kept). -/
def splitList (c : Char) : List Char → List (List Char)
  | [] => [[]]
  | x :: xs =>
    let r := splitList c xs
    if x = c then [] :: r
    else
      match r with
      | [] => [[x]]
      | h :: t => (x :: h) :: t

/-- `/^\d/.test(s)`: does the string start with a digit? -/
def startsWithDigit (s : String) : Bool :=
  match s.data with
  | [] => false
  | c :: _ => c.isDigit

/-- `isNumber` from the widget: `/^\d/.test(str.trim())`. -/
def isNumber (s : String) : Bool := startsWithDigit (jsTrim s)

/-- `formatZip` (src/ruian-widget.js lines 104-111): a falsy argument yields `""`;
otherwise all whitespace is stripped and, when exactly 5 characters remain, the
result is rendered `"XXX XX"`; any other stripped length is returned as-is. -/
def formatZip (zip : Option String) : String :=
  match zip with
  | none => ""
  | some z =>
    if z = "" then ""
    else
      let s := stripWs z
      if s.data.length = 5 then
        String.mk (s.data.take 3) ++ " " ++ String.mk (s.data.drop 3)
      else s

/-- `parseNumber` (src/ruian-widget.js lines 574-582), reflected as the final
`(cp, co)` pair observed by its callers, which invoke it as
`parseNumber(x, (p, o) => { cp = p; co = o })` with `cp`/`co` initially `null`. -/
def parseNumber (numStr : String) : Option String × Option String :=
  let nums := (splitList '/' numStr.data).map String.mk
  let cpRaw := stripNonDigits (nums.head?.getD "")
  let st1 : Option String × Option String :=
    if cpRaw ≠ "" then (some cpRaw, none) else (none, none)
  match nums[1]? with
  | some n1 =>
    if n1 ≠ "" then
      let coRaw := stripNonDigits n1
      if coRaw ≠ "" then (some cpRaw, some coRaw) else st1
    else st1
  | none => st1

/-- A decimal digit is never a whitespace character. -/
theorem isWs_eq_false_of_isDigit (c : Char) (h : c.isDigit = true) : isWs c = false := by
  by_contra hw
  have hw' : isWs c = true := by
    cases hvw : isWs c
    · exact absurd hvw hw
    · rfl
  have hcases : ((c = ' ' ∨ c = '\t') ∨ c = '\r') ∨ c = '\n' := by
    simpa [isWs, Char.isWhitespace] using hw'
  rcases hcases with ((hc | hc) | hc) | hc <;> subst hc <;> exact absurd h (by decide)

/-- **C6 counterexample.** The claim "for any input whose length is not 5 the
function is the identity" fails: `formatZip` strips whitespace first, so the
2-character input `" 1"` is mapped to `"1"`, not to itself. -/
theorem formatZip_c6_counterexample :
    (" 1" : String).data.length ≠ 5 ∧ formatZip (some " 1") ≠ " 1" := by
  decide

/-- **C6 (amended).** `formatZip` maps a falsy input to the empty string;
otherwise it strips all whitespace from the input and, whenever the stripped
string has exactly 5 characters (digits or not), returns its first three
characters, a space, and its last two — so a digits-only string of length 5 is
rendered as `"XXX XX"` — while any input whose stripped form does not have
exactly 5 characters yields the stripped string. It is therefore the identity
on whitespace-free inputs whose length is not 5, but not on all inputs of
length other than 5 (`formatZip (some " 1") = "1"`, and
`formatZip (some "abcde") = "abc de"`). -/
theorem formatZip_amended :
    formatZip none = "" ∧
    (∀ z : String,
        formatZip (some z) =
          if (stripWs z).data.length = 5 then
            String.mk ((stripWs z).data.take 3) ++ " " ++ String.mk ((stripWs z).data.drop 3)
          else stripWs z) ∧
    (∀ z : String, z.data.all Char.isDigit = true → z.data.length = 5 →
        formatZip (some z) = String.mk (z.data.take 3) ++ " " ++ String.mk (z.data.drop 3)) ∧
    (∀ z : String, z.data.all (fun c => !isWs c) = true → z.data.length ≠ 5 →
        formatZip (some z) = z) := by
  have hstrip : ∀ z : String, z.data.all (fun c => !isWs c) = true → stripWs z = z := by
    intro z h
    unfold stripWs
    rw [List.filter_eq_self.mpr (by simpa [List.all_eq_true] using h)]
  have hmain : ∀ z : String,
      formatZip (some z) =
        if (stripWs z).data.length = 5 then
          String.mk ((stripWs z).data.take 3) ++ " " ++ String.mk ((stripWs z).data.drop 3)
        else stripWs z := by
    intro z
    by_cases hz : z = ""
    · subst hz
      decide
    · have hdef : formatZip (some z) =
          if z = "" then ""
          else
            if (stripWs z).data.length = 5 then
              String.mk ((stripWs z).data.take 3) ++ " " ++ String.mk ((stripWs z).data.drop 3)
            else stripWs z := rfl
      rw [hdef, if_neg hz]
  refine ⟨rfl, hmain, ?_, ?_⟩
  · intro z hdig hlen
    have hnw : z.data.all (fun c => !isWs c) = true := by
      simp only [List.all_eq_true] at hdig ⊢
      intro c hc
      have hd := hdig c hc
      simp only [Bool.not_eq_true']
      exact isWs_eq_false_of_isDigit c (by simpa using hd)
    have hs := hstrip z hnw
    rw [hmain z, hs, if_pos hlen]
  · intro z hnw hlen
    have hs := hstrip z hnw
    rw [hmain z, hs, if_neg hlen]

/-- Witness for `formatZip_amended` at concrete inputs: an input stripping to 5
characters is formatted even when it contains whitespace, a digits-only
5-character input becomes `"123 45"`, and a whitespace-free input of length 3
passes through unchanged. -/
theorem formatZip_amended_witness :
    formatZip (some " 123 45 ") = "123 45" ∧
    formatZip (some "12345") =
        String.mk (("12345" : String).data.take 3) ++ " " ++ String.mk (("12345" : String).data.drop 3) ∧
    formatZip (some "abc") = "abc" :=
  ⟨(formatZip_amended.2.1 " 123 45 ").trans (by decide),
   formatZip_amended.2.2.1 "12345" (by decide) (by decide),
   formatZip_amended.2.2.2 "abc" (by decide) (by decide)⟩

/-- **C7.** `parseNumber` splits on `/`: the reported descriptive number (cp) is
always the digit-stripped portion before the slash, and is reported whenever
that stripped portion is nonempty; the reported orientation number (co) is
always the digit-stripped portion after the slash, reported whenever that
portion has at least one digit; with no slash portion, no orientation number is
reported. -/
theorem parseNumber_spec (numStr : String) :
    (∀ c, (parseNumber numStr).1 = some c →
      c = stripNonDigits ((((splitList '/' numStr.data).map String.mk)).head?.getD "")) ∧
    (stripNonDigits ((((splitList '/' numStr.data).map String.mk)).head?.getD "") ≠ "" →
      (parseNumber numStr).1 =
        some (stripNonDigits ((((splitList '/' numStr.data).map String.mk)).head?.getD ""))) ∧
    (∀ c, (parseNumber numStr).2 = some c →
      ∃ p1, (((splitList '/' numStr.data).map String.mk))[1]? = some p1 ∧ c = stripNonDigits p1) ∧
    (∀ p1, (((splitList '/' numStr.data).map String.mk))[1]? = some p1 →
      stripNonDigits p1 ≠ "" → (parseNumber numStr).2 = some (stripNonDigits p1)) ∧
    ((((splitList '/' numStr.data).map String.mk))[1]? = none → (parseNumber numStr).2 = none) := by
  unfold parseNumber
  set nums := (splitList '/' numStr.data).map String.mk with hnums
  rcases h1 : nums[1]? with _ | p1
  · by_cases hcp : stripNonDigits (nums.head?.getD "") = "" <;>
      simp [h1, hcp]
  · by_cases hp1 : p1 = ""
    · subst hp1
      have hco : stripNonDigits "" = "" := by decide
      by_cases hcp : stripNonDigits (nums.head?.getD "") = "" <;>
        simp [h1, hcp, hco]
    · by_cases hco : stripNonDigits p1 = ""
      · by_cases hcp : stripNonDigits (nums.head?.getD "") = "" <;>
          simp [h1, hp1, hco, hcp]
      · by_cases hcp : stripNonDigits (nums.head?.getD "") = "" <;>
          simp [h1, hp1, hco, hcp]

/-- Witness for `parseNumber_spec`: on `"123a/4b"` the reported pair is
`(some "123", some "4")`. -/
theorem parseNumber_spec_witness :
    (parseNumber "123a/4b").1 =
      some (stripNonDigits ((((splitList '/' ("123a/4b" : String).data).map String.mk)).head?.getD "")) ∧
    (parseNumber "123a/4b").2 = some (stripNonDigits "4b") :=
  ⟨(parseNumber_spec "123a/4b").2.1 (by decide),
   (parseNumber_spec "123a/4b").2.2.2.1 "4b" (by decide) (by decide)⟩

/-! ## Data model -/

/-- Catalog entry built by `loadAllMunicipalities` (lines 186-193). -/
structure Municipality where
  municipalityId : Nat
  municipalityName : String
  regionId : String
  regionName : String
deriving DecidableEq

/-- `this.state` of the widget (lines 40-45). -/
structure WidgetState where
  municipalityId : Option Nat
  municipalityName : Option String
  zip : Option String
  streetName : Option String
deriving DecidableEq

/-- A street record as returned by the `build/streets` endpoint. -/
structure StreetRec where
  streetName : Option String
  streetLessPartName : Option String
deriving DecidableEq

/-- A place record as returned by the `build/places` endpoint. -/
structure PlaceRec where
  placeCp : Option String
  placeCo : Option String
  placeCe : Option String
  placeZip : Option String
deriving DecidableEq

/-- The `data` payload of a municipality suggestion (lines 669-675). -/
structure MunData where
  municipalityId : Nat
  municipalityName : String
  regionId : String
  regionName : String
  zip : Option String
deriving DecidableEq

/-- The `place` object of a `MATCH` response of the `validate` endpoint.
Per the registry contract, a matched place always carries its municipality
identification and record id; the remaining fields are optional. -/
structure VPlace where
  municipalityId : Nat
  municipalityName : String
  municipalityPartId : Option Nat
  municipalityPartName : Option String
  streetName : Option String
  ce : Option String
  cp : Option String
  co : Option String
  zip : Option String
  id : Nat
  regionId : Option String
  regionName : Option String
deriving DecidableEq

/-- The fields that `mapToRuianPlace` reads off its (duck-typed) argument,
each possibly absent. -/
structure JsPlaceView where
  municipalityId : Option Nat
  municipalityName : Option String
  municipalityPartId : Option Nat
  municipalityPartName : Option String
  streetName : Option String
  ce : Option String
  cp : Option String
  co : Option String
  zip : Option String
  id : Option Nat
  regionId : Option String
  regionName : Option String
deriving DecidableEq

/-- The `RUIANplace` output object built by `mapToRuianPlace` (lines 455-473). -/
structure RuianPlace where
  valid : Bool
  municipalityId : Option Nat
  municipalityName : Option String
  municipalityPartId : Option Nat
  municipalityPartName : Option String
  streetName : Option String
  ce : Option String
  cp : Option String
  co : Option String
  zip : Option String
  id : Option Nat
  ruianId : Option Nat
  regionId : Option String
  regionName : Option String
  originalString : String
deriving DecidableEq

/-- The `type` tag of a suggestion record. -/
inductive SuggKind where
  | municipality
  | street
  | place
  | complete
deriving DecidableEq

/-- The `data` payload of a suggestion record. -/
inductive SuggData where
  | mun (d : MunData)
  | street (s : StreetRec)
  | place (p : PlaceRec)
  | vplace (p : VPlace)
deriving DecidableEq

/-- A suggestion record `{type, label, value, data}`. -/
structure Suggestion where
  kind : SuggKind
  label : String
  value : String
  data : SuggData
deriving DecidableEq

/-- Response of the `validate` endpoint: `{status, place?}`. -/
structure ValidateResp where
  status : String
  place : Option VPlace
deriving DecidableEq

/-- Deterministic model of the environment: the credential, the loaded
municipality catalog, and the registry responses, one field per endpoint. -/
structure Oracle where
  apiKey : String
  catalog : List Municipality
  zipOf : Nat → Option String
  streetsOf : Option Nat → Option (List StreetRec)
  placesOf : Option Nat → Option String → Option (List PlaceRec)
  validateO : String → WidgetState → Option ValidateResp

/-! ## Municipality search (`searchMunicipality`, lines 587-678) -/

/-- Lexicographic comparison of raw character lists by code point, modelling
the final `localeCompare` tiebreak of the sort comparator. -/
def listCharLE : List Char → List Char → Bool
  | [], _ => true
  | _ :: _, [] => false
  | a :: as, b :: bs =>
    if a.toNat < b.toNat then true
    else if b.toNat < a.toNat then false
    else listCharLE as bs

theorem listCharLE_trans : ∀ (a b c : List Char),
    listCharLE a b = true → listCharLE b c = true → listCharLE a c = true
  | [], _, _, _, _ => rfl
  | _ :: _, [], _, h, _ => by simp [listCharLE] at h
  | _ :: _, _ :: _, [], _, h => by simp [listCharLE] at h
  | x :: xs, y :: ys, z :: zs, h1, h2 => by
    unfold listCharLE at h1 h2 ⊢
    by_cases hxy : x.toNat < y.toNat
    · by_cases hyz : y.toNat < z.toNat
      · simp [Nat.lt_trans hxy hyz]
      · by_cases hzy : z.toNat < y.toNat
        · simp [hyz, hzy] at h2
        · have hxz : x.toNat < z.toNat := by omega
          simp [hxz]
    · by_cases hyx : y.toNat < x.toNat
      · simp [hxy, hyx] at h1
      · simp [hxy, hyx] at h1
        by_cases hyz : y.toNat < z.toNat
        · have hxz : x.toNat < z.toNat := by omega
          simp [hxz]
        · by_cases hzy : z.toNat < y.toNat
          · simp [hyz, hzy] at h2
          · simp [hyz, hzy] at h2
            have hxz : ¬ x.toNat < z.toNat := by omega
            have hzx : ¬ z.toNat < x.toNat := by omega
            simp [hxz, hzx]
            exact listCharLE_trans xs ys zs h1 h2

theorem listCharLE_total : ∀ (a b : List Char),
    listCharLE a b = true ∨ listCharLE b a = true
  | [], _ => Or.inl rfl
  | _ :: _, [] => Or.inr rfl
  | x :: xs, y :: ys => by
    unfold listCharLE
    by_cases hxy : x.toNat < y.toNat
    · exact Or.inl (by simp [hxy])
    · by_cases hyx : y.toNat < x.toNat
      · exact Or.inr (by simp [hyx])
      · simpa [hxy, hyx] using listCharLE_total xs ys

/-- Two-level lexicographic comparison: a numeric rank, then a tiebreak. -/
def lexLE {α : Type} (k : α → Nat) (tie : α → α → Bool) (a b : α) : Bool :=
  if k a < k b then true else if k b < k a then false else tie a b

theorem lexLE_trans {α : Type} {k : α → Nat} {tie : α → α → Bool}
    (ht : ∀ a b c, tie a b = true → tie b c = true → tie a c = true) :
    ∀ a b c, lexLE k tie a b = true → lexLE k tie b c = true → lexLE k tie a c = true := by
  intro a b c h1 h2
  unfold lexLE at h1 h2 ⊢
  by_cases hab : k a < k b
  · by_cases hbc : k b < k c
    · simp [Nat.lt_trans hab hbc]
    · by_cases hcb : k c < k b
      · simp [hbc, hcb] at h2
      · have hac : k a < k c := by omega
        simp [hac]
  · by_cases hba : k b < k a
    · simp [hab, hba] at h1
    · simp [hab, hba] at h1
      by_cases hbc : k b < k c
      · have hac : k a < k c := by omega
        simp [hac]
      · by_cases hcb : k c < k b
        · simp [hbc, hcb] at h2
        · simp [hbc, hcb] at h2
          have h3 : ¬ k a < k c := by omega
          have h4 : ¬ k c < k a := by omega
          simp [h3, h4]
          exact ht a b c h1 h2

theorem lexLE_total {α : Type} {k : α → Nat} {tie : α → α → Bool}
    (ht : ∀ a b, tie a b = true ∨ tie b a = true) :
    ∀ a b, lexLE k tie a b = true ∨ lexLE k tie b a = true := by
  intro a b
  unfold lexLE
  by_cases hab : k a < k b
  · exact Or.inl (by simp [hab])
  · by_cases hba : k b < k a
    · exact Or.inr (by simp [hba])
    · simpa [hab, hba] using ht a b

/-- `query.toLowerCase().trim()` (line 591). -/
def munNorm (query : String) : String := jsTrim (sLower query)

/-- One catalog entry matches when its lower-cased name contains the
normalized query (lines 594-597). -/
def munNameMatches (normalized : String) (m : Municipality) : Bool :=
  jsIncludes (sLower m.municipalityName) normalized

/-- The filtered match set (before sorting). -/
def munMatches (catalog : List Municipality) (normalized : String) : List Municipality :=
  catalog.filter (munNameMatches normalized)

/-- Exact-name test of the sort comparator. -/
def munExact (n : String) (m : Municipality) : Bool := sLower m.municipalityName == n

/-- Starts-with test of the sort comparator. -/
def munStarts (n : String) (m : Municipality) : Bool :=
  n.data.isPrefixOf (sLower m.municipalityName).data

/-- Name length, the third sort criterion. -/
def munLenOf (m : Municipality) : Nat := m.municipalityName.data.length

/-- Encodes the (exact, startsWith) pair of booleans as one rank so that the
comparator's first two criteria become a single numeric comparison. -/
def munRank (n : String) (m : Municipality) : Nat :=
  (if munExact n m then 0 else 2) + (if munStarts n m then 0 else 1)

/-- Final alphabetical tiebreak (`localeCompare`, modelled by code points). -/
def munNameTie (a b : Municipality) : Bool :=
  listCharLE a.municipalityName.data b.municipalityName.data

/-- The sort comparator of lines 600-615, as a total boolean preorder:
exact match first, then starts-with, then shorter name, then alphabetical. -/
def munLE (n : String) : Municipality → Municipality → Bool :=
  lexLE (munRank n) (lexLE munLenOf munNameTie)

/-- `munLE` as a relation, for `List.insertionSort`. -/
def munRel (n : String) : Municipality → Municipality → Prop :=
  fun a b => munLE n a b = true

instance munRelDecidable (n : String) : DecidableRel (munRel n) :=
  fun a b => inferInstanceAs (Decidable (munLE n a b = true))

/-- Characterization of the comparator in the claim's language. -/
theorem munLE_iff (n : String) (a b : Municipality) :
    munLE n a b = true ↔
      (munExact n a = true ∧ munExact n b = false) ∨
      (munExact n a = munExact n b ∧ munStarts n a = true ∧ munStarts n b = false) ∨
      (munExact n a = munExact n b ∧ munStarts n a = munStarts n b ∧
        munLenOf a < munLenOf b) ∨
      (munExact n a = munExact n b ∧ munStarts n a = munStarts n b ∧
        munLenOf a = munLenOf b ∧ munNameTie a b = true) := by
  unfold munLE lexLE munRank
  cases hea : munExact n a <;> cases heb : munExact n b <;>
    cases hsa : munStarts n a <;> cases hsb : munStarts n b <;>
      by_cases hlen : munLenOf a < munLenOf b <;>
        by_cases hlen' : munLenOf b < munLenOf a <;>
          simp [hlen, hlen'] <;> omega

/-- Count of matches sharing both lower-cased name and region with `m`
(the `nameRegionGroups` bucket of `m`, lines 618-622). -/
def nrCount (ms : List Municipality) (m : Municipality) : Nat :=
  ms.countP (fun x =>
    sLower x.municipalityName == sLower m.municipalityName && x.regionId == m.regionId)

/-- Count of matches sharing the lower-cased name with `m`
(the `nameGroups` bucket of `m`, lines 625-629). -/
def nCount (ms : List Municipality) (m : Municipality) : Nat :=
  ms.countP (fun x => sLower x.municipalityName == sLower m.municipalityName)

/-- The `needsZip` flag: a ZIP lookup is issued for `m` exactly when its
(name, region) bucket has more than one member (lines 635-642). -/
def munNeedsZip (ms : List Municipality) (m : Municipality) : Bool :=
  decide (1 < nrCount ms m)

/-- The ZIP obtained for a top candidate: fetched only when flagged. -/
def munZipLookup (o : Oracle) (ms : List Municipality) (m : Municipality) :
    Option String :=
  if munNeedsZip ms m then o.zipOf m.municipalityId else none

/-- Label construction for one candidate (lines 651-663). -/
def munLabel (o : Oracle) (ms : List Municipality) (m : Municipality) : String :=
  let fz := formatZip (munZipLookup o ms m)
  if munNeedsZip ms m && fz != "" then
    m.municipalityName ++ ", " ++ fz ++ " (" ++ m.regionName ++ ")"
  else if 1 < nCount ms m then
    m.municipalityName ++ " (" ++ m.regionName ++ ")"
  else m.municipalityName

/-- The suggestion built for one top candidate (lines 645-677). -/
def munSuggestion (o : Oracle) (ms : List Municipality) (m : Municipality) :
    Suggestion :=
  { kind := .municipality
    label := munLabel o ms m
    value := m.municipalityName
    data := .mun
      { municipalityId := m.municipalityId
        municipalityName := m.municipalityName
        regionId := m.regionId
        regionName := m.regionName
        zip := munZipLookup o ms m } }

/-- `searchMunicipality` (lines 587-678).  The guard rejects queries starting
with a digit, shorter than 2 characters, or a missing credential; matching is
case-insensitive substring containment over the catalog; the match set is
sorted by the comparator, capped at 15, and enriched into suggestions.
JS `Array.prototype.sort` (stable since ES2019) is modelled by the stable
`List.insertionSort`. -/
def searchMunicipality (o : Oracle) (query : String) : List Suggestion :=
  if startsWithDigit query || query.data.length < 2 || o.apiKey == "" then []
  else
    let n := munNorm query
    let mtc := munMatches o.catalog n
    ((List.insertionSort (munRel n) mtc).take 15).map (munSuggestion o mtc)

/-- Under the guards, `searchMunicipality` unfolds to sort-take-enrich. -/
theorem searchMunicipality_eq (o : Oracle) (query : String)
    (hd : startsWithDigit query = false) (hl : 2 ≤ query.data.length)
    (hk : o.apiKey ≠ "") :
    searchMunicipality o query =
      ((List.insertionSort (munRel (munNorm query))
          (munMatches o.catalog (munNorm query))).take 15).map
        (munSuggestion o (munMatches o.catalog (munNorm query))) := by
  have h1 : (decide (query.data.length < 2)) = false := decide_eq_false (Nat.not_lt.mpr hl)
  have h2 : (o.apiKey == "") = false := beq_eq_false_iff_ne.mpr hk
  unfold searchMunicipality
  rw [hd, h1, h2]
  rfl

/-- **C2.** For a loaded catalog and a query of length ≥ 2 not starting with a
digit (and a present credential), `searchMunicipality` returns the
case-insensitive substring matches, ordered by: exact match first, then
starts-with, then increasing name length, then alphabetically; the ordering is
deterministic (equal results on repeated calls), and the candidate set is
capped at 15 entries before any ZIP enrichment. -/
theorem searchMunicipality_ranked (o : Oracle) (query : String)
    (hd : startsWithDigit query = false) (hl : 2 ≤ query.data.length)
    (hk : o.apiKey ≠ "") :
    ∃ L : List Municipality,
      L.Perm (munMatches o.catalog (munNorm query)) ∧
      L.Pairwise (fun a b =>
        (munExact (munNorm query) a = true ∧ munExact (munNorm query) b = false) ∨
        (munExact (munNorm query) a = munExact (munNorm query) b ∧
          munStarts (munNorm query) a = true ∧ munStarts (munNorm query) b = false) ∨
        (munExact (munNorm query) a = munExact (munNorm query) b ∧
          munStarts (munNorm query) a = munStarts (munNorm query) b ∧
          munLenOf a < munLenOf b) ∨
        (munExact (munNorm query) a = munExact (munNorm query) b ∧
          munStarts (munNorm query) a = munStarts (munNorm query) b ∧
          munLenOf a = munLenOf b ∧ munNameTie a b = true)) ∧
      searchMunicipality o query =
        (L.take 15).map (munSuggestion o (munMatches o.catalog (munNorm query))) ∧
      (searchMunicipality o query).length ≤ 15 ∧
      searchMunicipality o query = searchMunicipality o query := by
  refine ⟨List.insertionSort (munRel (munNorm query)) (munMatches o.catalog (munNorm query)),
    List.perm_insertionSort _ _, ?_, searchMunicipality_eq o query hd hl hk, ?_, rfl⟩
  · haveI : IsTrans Municipality (munRel (munNorm query)) :=
      ⟨lexLE_trans (lexLE_trans (fun a b c hab hbc => listCharLE_trans _ _ _ hab hbc))⟩
    haveI : IsTotal Municipality (munRel (munNorm query)) :=
      ⟨lexLE_total (lexLE_total (fun a b => listCharLE_total _ _))⟩
    have hs := List.sorted_insertionSort (munRel (munNorm query))
      (munMatches o.catalog (munNorm query))
    exact hs.imp (fun h => (munLE_iff (munNorm query) _ _).mp h)
  · rw [searchMunicipality_eq o query hd hl hk]
    simp only [List.length_map, List.length_take]
    omega

/-- A small concrete catalog used by the witnesses: two municipalities named
"Lhota" in the same region, one other municipality. -/
def lhotaA : Municipality :=
  { municipalityId := 1, municipalityName := "Lhota", regionId := "CZ010",
    regionName := "Region A" }

def lhotaB : Municipality :=
  { municipalityId := 2, municipalityName := "Lhota", regionId := "CZ010",
    regionName := "Region A" }

def demoOracle : Oracle :=
  { apiKey := "k"
    catalog := [lhotaA, lhotaB,
      { municipalityId := 3, municipalityName := "Brno", regionId := "CZ064",
        regionName := "Region B" }]
    zipOf := fun _ => some "12345"
    streetsOf := fun _ => none
    placesOf := fun _ _ => none
    validateO := fun _ _ => none }

/-- Witness for `searchMunicipality_ranked` on the concrete demo catalog. -/
theorem searchMunicipality_ranked_witness :
    ∃ L : List Municipality,
      L.Perm (munMatches demoOracle.catalog (munNorm "lho")) ∧
      L.Pairwise (fun a b =>
        (munExact (munNorm "lho") a = true ∧ munExact (munNorm "lho") b = false) ∨
        (munExact (munNorm "lho") a = munExact (munNorm "lho") b ∧
          munStarts (munNorm "lho") a = true ∧ munStarts (munNorm "lho") b = false) ∨
        (munExact (munNorm "lho") a = munExact (munNorm "lho") b ∧
          munStarts (munNorm "lho") a = munStarts (munNorm "lho") b ∧
          munLenOf a < munLenOf b) ∨
        (munExact (munNorm "lho") a = munExact (munNorm "lho") b ∧
          munStarts (munNorm "lho") a = munStarts (munNorm "lho") b ∧
          munLenOf a = munLenOf b ∧ munNameTie a b = true)) ∧
      searchMunicipality demoOracle "lho" =
        (L.take 15).map (munSuggestion demoOracle (munMatches demoOracle.catalog (munNorm "lho"))) ∧
      (searchMunicipality demoOracle "lho").length ≤ 15 ∧
      searchMunicipality demoOracle "lho" = searchMunicipality demoOracle "lho" :=
  searchMunicipality_ranked demoOracle "lho" (by decide) (by decide) (by decide)

/-- **C3.** In `searchMunicipality`'s output, a suggestion's label is
`"Name, ZIP (Region)"` when another match shares its lower-cased name and
region and its ZIP was resolved; `"Name (Region)"` when other matches share
only its name across different regions (in which case no ZIP lookup is
issued); plain `"Name"` when its name is unique among the matches; and a ZIP
lookup is issued only for candidates whose (lower-cased name, region) group
among the matches has more than one member. -/
theorem searchMunicipality_labels (o : Oracle) (query : String)
    (hd : startsWithDigit query = false) (hl : 2 ≤ query.data.length)
    (hk : o.apiKey ≠ "")
    (i : Nat) (m : Municipality) (s : Suggestion)
    (hm : ((List.insertionSort (munRel (munNorm query))
        (munMatches o.catalog (munNorm query))).take 15)[i]? = some m)
    (hs : (searchMunicipality o query)[i]? = some s) :
    (1 < nrCount (munMatches o.catalog (munNorm query)) m →
      formatZip (o.zipOf m.municipalityId) ≠ "" →
      s.label = m.municipalityName ++ ", " ++ formatZip (o.zipOf m.municipalityId)
        ++ " (" ++ m.regionName ++ ")") ∧
    (1 < nCount (munMatches o.catalog (munNorm query)) m →
      nrCount (munMatches o.catalog (munNorm query)) m ≤ 1 →
      s.label = m.municipalityName ++ " (" ++ m.regionName ++ ")" ∧
      munZipLookup o (munMatches o.catalog (munNorm query)) m = none) ∧
    (nCount (munMatches o.catalog (munNorm query)) m = 1 →
      s.label = m.municipalityName) ∧
    (munZipLookup o (munMatches o.catalog (munNorm query)) m ≠ none →
      1 < nrCount (munMatches o.catalog (munNorm query)) m) := by
  set ms := munMatches o.catalog (munNorm query) with hmdef
  rw [searchMunicipality_eq o query hd hl hk, List.getElem?_map, ← hmdef, hm] at hs
  have hsval : s = munSuggestion o ms m := by
    simpa using hs.symm
  subst hsval
  have hmono : nrCount ms m ≤ nCount ms m := by
    unfold nrCount nCount
    refine List.countP_mono_left ?_
    intro a _ ha
    simp only [Bool.and_eq_true] at ha
    exact ha.1
  refine ⟨?_, ?_, ?_, ?_⟩
  · intro hnr hfz
    have hflag : munNeedsZip ms m = true := by
      simp [munNeedsZip, hnr]
    have hzl : munZipLookup o ms m = o.zipOf m.municipalityId := by
      simp [munZipLookup, hflag]
    simp [munSuggestion, munLabel, hflag, hzl, hfz]
  · intro hn hnr
    have hflag : munNeedsZip ms m = false := by
      simp [munNeedsZip]
      omega
    have hzl : munZipLookup o ms m = none := by
      simp [munZipLookup, hflag]
    constructor
    · simp [munSuggestion, munLabel, hflag, hn]
    · exact hzl
  · intro hn
    have hflag : munNeedsZip ms m = false := by
      simp [munNeedsZip]
      omega
    have hzl : munZipLookup o ms m = none := by
      simp [munZipLookup, hflag]
    have hn2 : ¬ 1 < nCount ms m := by omega
    simp [munSuggestion, munLabel, hflag, hn2]
  · intro hzl
    by_contra hnr
    have hflag : munNeedsZip ms m = false := by
      simp [munNeedsZip]
      omega
    exact hzl (by simp [munZipLookup, hflag])

/-- Witness for `searchMunicipality_labels`: on the demo catalog the first
"Lhota" suggestion carries ZIP and region in its label. -/
theorem searchMunicipality_labels_witness :
    (munSuggestion demoOracle (munMatches demoOracle.catalog (munNorm "lho")) lhotaA).label
      = lhotaA.municipalityName ++ ", " ++ formatZip (demoOracle.zipOf lhotaA.municipalityId)
        ++ " (" ++ lhotaA.regionName ++ ")" :=
  (searchMunicipality_labels demoOracle "lho" (by decide) (by decide) (by decide)
      0 lhotaA
      (munSuggestion demoOracle (munMatches demoOracle.catalog (munNorm "lho")) lhotaA)
      (by decide) (by decide)).1 (by decide) (by decide)

/-! ## The resolution state machine (`handleInput`, `tryAutoSelectContext`,
`selectSuggestion`, `resetState`, `triggerCallback`) -/

/-- The empty session context. -/
def emptyState : WidgetState :=
  { municipalityId := none, municipalityName := none, zip := none, streetName := none }

/-- `resetState` (lines 901-908): clears the whole context. -/
def resetState : WidgetState := emptyState

/-- JS string coercion of a nullable value inside a template literal
(`null` and `undefined` are conflated into one missing value here). -/
def jsShow : Option String → String
  | some s => s
  | none => "null"

/-- `item.data.municipalityId` (absent on street/place payloads). -/
def SuggData.munId : SuggData → Option Nat
  | .mun d => some d.municipalityId
  | .vplace p => some p.municipalityId
  | _ => none

/-- `item.data.municipalityName`. -/
def SuggData.munName : SuggData → Option String
  | .mun d => some d.municipalityName
  | .vplace p => some p.municipalityName
  | _ => none

/-- `item.data.zip`. -/
def SuggData.zipAcc : SuggData → Option String
  | .mun d => d.zip
  | .vplace p => p.zip
  | _ => none

/-- `item.data.streetName`. -/
def SuggData.streetAcc : SuggData → Option String
  | .vplace p => p.streetName
  | .street s => s.streetName
  | _ => none

/-- `item.data.placeZip`. -/
def SuggData.placeZipAcc : SuggData → Option String
  | .place p => p.placeZip
  | _ => none

/-- The duck-typed field view of a validate-match place. -/
def VPlace.view (p : VPlace) : JsPlaceView :=
  { municipalityId := some p.municipalityId
    municipalityName := some p.municipalityName
    municipalityPartId := p.municipalityPartId
    municipalityPartName := p.municipalityPartName
    streetName := p.streetName
    ce := p.ce
    cp := p.cp
    co := p.co
    zip := p.zip
    id := some p.id
    regionId := p.regionId
    regionName := p.regionName }

/-- The duck-typed field view of an arbitrary suggestion payload, as read by
`mapToRuianPlace` (absent fields are `undefined`). -/
def SuggData.view : SuggData → JsPlaceView
  | .vplace p => p.view
  | .mun d =>
    { municipalityId := some d.municipalityId
      municipalityName := some d.municipalityName
      municipalityPartId := none
      municipalityPartName := none
      streetName := none
      ce := none, cp := none, co := none
      zip := d.zip
      id := none
      regionId := some d.regionId
      regionName := some d.regionName }
  | .street s =>
    { municipalityId := none, municipalityName := none, municipalityPartId := none
      municipalityPartName := none, streetName := s.streetName
      ce := none, cp := none, co := none, zip := none, id := none
      regionId := none, regionName := none }
  | .place _ =>
    { municipalityId := none, municipalityName := none, municipalityPartId := none
      municipalityPartName := none, streetName := none
      ce := none, cp := none, co := none, zip := none, id := none
      regionId := none, regionName := none }

/-- `mapToRuianPlace` (lines 455-473): always marks the result `valid`,
defaults absent optional fields to `null`, duplicates `id` into `ruianId`,
and records the current input text as `originalString`. -/
def mapToRuianPlace (p : JsPlaceView) (originalString : String) : RuianPlace :=
  { valid := true
    municipalityId := p.municipalityId
    municipalityName := p.municipalityName
    municipalityPartId := jsOrNullN p.municipalityPartId
    municipalityPartName := jsNullify p.municipalityPartName
    streetName := jsNullify p.streetName
    ce := jsNullify p.ce
    cp := jsNullify p.cp
    co := jsNullify p.co
    zip := p.zip
    id := p.id
    ruianId := p.id
    regionId := jsNullify p.regionId
    regionName := jsNullify p.regionName
    originalString := originalString }

/-- Observable actions of one resolution pass: a context reset, the four
registry query kinds, and a `triggerCallback` invocation, recorded as the
`onValidationChange(isValid, payload)` pair it emits (lines 910-923). -/
inductive Event where
  | reset
  | munSearch (q : String)
  | streetSearch (municipalityId : Option Nat) (q : String)
  | placeSearch (municipalityId : Option Nat) (street : Option String) (q : String)
  | validateCall (q : String)
  | callback (isValid : Option Bool) (payload : Option RuianPlace)
deriving DecidableEq

/-- Any of the four registry query kinds. -/
def Event.isQuery : Event → Bool
  | .munSearch _ => true
  | .streetSearch _ _ => true
  | .placeSearch _ _ _ => true
  | .validateCall _ => true
  | _ => false

/-- An incremental-suggestion search (municipality, street or place). -/
def Event.isIncSearch : Event → Bool
  | .munSearch _ => true
  | .streetSearch _ _ => true
  | .placeSearch _ _ _ => true
  | _ => false

/-- The comma-split, trimmed segments of the input (line 310). -/
def handleParts (value : String) : List String :=
  (splitList ',' value.data).map (fun l => jsTrim (String.mk l))

/-- The prefix test of lines 316-318:
`cleanVal.startsWith(cleanState.substring(0, min(cleanVal.length, cleanState.length)))`. -/
def prefixKeepCond (stName value : String) : Bool :=
  let cv := (sLower value).data
  let cs := (sLower stName).data
  (cs.take (min cv.length cs.length)).isPrefixOf cv

/-- Lines 314-322: at segment index 0 with a remembered municipality, reset
the context when the typed text diverges from the remembered name. -/
def resetCheck (st : WidgetState) (value : String) (parts : List String) :
    WidgetState × List Event :=
  if parts.length == 1 && truthyS st.municipalityName then
    if ! prefixKeepCond (st.municipalityName.getD "") value then
      (resetState, [Event.reset])
    else (st, [])
  else (st, [])

/-- `s.streetName || s.streetLessPartName`. -/
def streetLabelOf (s : StreetRec) : Option String := jsOr s.streetName s.streetLessPartName

/-- `searchStreet` (lines 683-702). -/
def searchStreet (o : Oracle) (municipalityId : Option Nat) (query : String) :
    List Suggestion :=
  if o.apiKey == "" then []
  else
    match o.streetsOf municipalityId with
    | none => []
    | some data =>
      let normalized := sLower query
      let filtered := data.filter (fun s =>
        match streetLabelOf s with
        | some name => name != "" && jsIncludes (sLower name) normalized
        | none => false)
      (filtered.take 10).map (fun s =>
        { kind := .street, label := (streetLabelOf s).getD "",
          value := (streetLabelOf s).getD "", data := .street s })

/-- Label of a place suggestion (lines 719-724). -/
def placeLabel (p : PlaceRec) : String :=
  let l0 := if truthyS p.placeCp then p.placeCp.getD "" else ""
  let l1 := if truthyS p.placeCo then l0 ++ "/" ++ p.placeCo.getD "" else l0
  if truthyS p.placeCe then "ev." ++ p.placeCe.getD "" else l1

/-- `searchPlace` (lines 707-744). -/
def searchPlace (o : Oracle) (municipalityId : Option Nat) (streetName : Option String)
    (query : String) : List Suggestion :=
  if o.apiKey == "" then []
  else
    match o.placesOf municipalityId (jsNullify streetName) with
    | none => []
    | some data =>
      let normalized := jsTrim (sLower query)
      let candidates := data.map (fun p =>
        ({ kind := .place, label := placeLabel p, value := placeLabel p,
           data := .place p } : Suggestion))
      let filtered := candidates.filter (fun c =>
        if normalized == "" then true
        else
          let coStr := match c.data with
            | .place p => if truthyS p.placeCo then sLower (p.placeCo.getD "") else ""
            | _ => ""
          let cpStr := match c.data with
            | .place p => if truthyS p.placeCp then sLower (p.placeCp.getD "") else ""
            | _ => ""
          normalized.data.isPrefixOf (sLower c.label).data ||
            normalized.data.isPrefixOf coStr.data ||
            normalized.data.isPrefixOf cpStr.data)
      filtered.take 10

/-- Auto-selection of the municipality context (lines 423-436). -/
def autoSelectMun (o : Oracle) (st : WidgetState) (parts : List String) :
    WidgetState × List Event :=
  if !truthyN st.municipalityId && parts.length > 1 then
    let q := parts.head?.getD ""
    if q.data.length > 1 then
      match (searchMunicipality o q).find? (fun c => sLower c.value == sLower q) with
      | some mtc =>
        ({ st with
           municipalityId := mtc.data.munId
           municipalityName := mtc.data.munName
           zip := mtc.data.zipAcc },
         [Event.munSearch q])
      | none => (st, [Event.munSearch q])
    else (st, [])
  else (st, [])

/-- Auto-selection of the street context (lines 438-449). -/
def autoSelectStreet (o : Oracle) (st : WidgetState) (parts : List String) :
    WidgetState × List Event :=
  if truthyN st.municipalityId && !truthyS st.streetName && parts.length > 2 then
    let q := (parts[1]?).getD ""
    if q.data.length > 0 && !isNumber q then
      match (searchStreet o st.municipalityId q).find? (fun c => sLower c.value == sLower q) with
      | some mtc =>
        ({ st with streetName := some mtc.value }, [Event.streetSearch st.municipalityId q])
      | none => (st, [Event.streetSearch st.municipalityId q])
    else (st, [])
  else (st, [])

/-- `tryAutoSelectContext` (lines 422-450). -/
def tryAutoSelectContext (o : Oracle) (st : WidgetState) (parts : List String) :
    WidgetState × List Event :=
  let a := autoSelectMun o st parts
  let b := autoSelectStreet o a.1 parts
  (b.1, a.2 ++ b.2)

/-- `apiValidate`'s result: `null` without a credential, else the registry's
response to the constructed validation query, supplied by the oracle as a
function of the full query string and the current context. -/
def apiValidateResult (o : Oracle) (value : String) (st : WidgetState) :
    Option ValidateResp :=
  if o.apiKey == "" then none else o.validateO value st

/-- The place of a `MATCH` response (line 334).  A malformed `MATCH` without a
`place` would throw in JS; the model routes it to the non-match branch, and
claims over this branch assume a well-formed oracle. -/
def matchedPlace : Option ValidateResp → Option VPlace
  | some r => if r.status == "MATCH" then r.place else none
  | none => none

/-- `a || b` where the JS fallback is a plain (possibly empty) string. -/
def jsOrStr (a : Option String) (b : String) : String :=
  if truthyS a then a.getD "" else b

/-- The canonical postal label built on a `MATCH` (lines 342-348):
`"<street-or-part-or-municipality> <cp>[/co | ev.ce], <formatted zip> <municipality>"`. -/
def postalLabel (p : VPlace) : String :=
  let streetPart := jsOrStr p.streetName (jsOrStr p.municipalityPartName p.municipalityName)
  let numberPart0 := jsOrStr p.cp ""
  let numberPart1 := if truthyS p.co then numberPart0 ++ "/" ++ p.co.getD "" else numberPart0
  let numberPart := if truthyS p.ce then "ev." ++ p.ce.getD "" else numberPart1
  streetPart ++ " " ++ numberPart ++ ", " ++ formatZip p.zip ++ " " ++ p.municipalityName

/-- The `complete`-typed correction suggestion (lines 356-361). -/
def completeSuggestion (p : VPlace) : Suggestion :=
  { kind := .complete, label := postalLabel p, value := postalLabel p, data := .vplace p }

/-- Section 2 of `handleInput` (lines 372-414): the incremental suggestion
builder, returning the suggestions and the searches it performed. -/
def suggestionBuilder (o : Oracle) (st : WidgetState) (parts : List String) :
    List Suggestion × List Event :=
  let currentText := parts.getLast?.getD ""
  if !truthyN st.municipalityId || parts.length == 1 then
    let msg := searchMunicipality o currentText
    if msg.length == 0 && parts.length > 1 && !truthyN st.municipalityId then
      (msg ++ searchMunicipality o (parts.head?.getD ""),
       [Event.munSearch currentText, Event.munSearch (parts.head?.getD "")])
    else (msg, [Event.munSearch currentText])
  else if !isNumber currentText && parts.length == 2 then
    let ss := searchStreet o st.municipalityId currentText
    if ss.length == 0 && jsTrim currentText == "" then
      (ss ++ searchPlace o st.municipalityId none currentText,
       [Event.streetSearch st.municipalityId currentText,
        Event.placeSearch st.municipalityId none currentText])
    else (ss, [Event.streetSearch st.municipalityId currentText])
  else
    (searchPlace o st.municipalityId st.streetName currentText,
     [Event.placeSearch st.municipalityId st.streetName currentText])

/-- Result of one `handleInput` pass: the new context, the ordered action
trace, and the argument of the final `renderSuggestions` call (`none` on the
empty-input early return, which closes the suggestion list instead). -/
structure HIResult where
  state : WidgetState
  events : List Event
  rendered : Option (List Suggestion)
deriving DecidableEq

/-- The context after the reset step and the auto-selection step. -/
def stage2State (o : Oracle) (st : WidgetState) (value : String) : WidgetState :=
  (tryAutoSelectContext o (resetCheck st value (handleParts value)).1 (handleParts value)).1

/-- `handleInput` (lines 302-417), as one pure pass over the oracle. -/
def handleInput (o : Oracle) (st : WidgetState) (value : String) : HIResult :=
  if (jsTrim value).data.length < 1 then
    { state := st, events := [Event.callback none none], rendered := none }
  else
    let parts := handleParts value
    let ev1 := (resetCheck st value parts).2
    let st2 := stage2State o st value
    let ev2 := (tryAutoSelectContext o (resetCheck st value parts).1 parts).2
    if value.data.length > 5 && value.data.any Char.isDigit then
      match matchedPlace (apiValidateResult o value st2) with
      | some p =>
        { state := st2
          events := ev1 ++ ev2 ++ [Event.validateCall value,
            Event.callback (some true) (some (mapToRuianPlace p.view value))]
          rendered := some (if normalizeWs value != normalizeWs (postalLabel p)
            then [completeSuggestion p] else []) }
      | none =>
        { state := st2
          events := ev1 ++ ev2 ++ Event.validateCall value ::
            Event.callback (some false) none :: (suggestionBuilder o st2 parts).2
          rendered := some (suggestionBuilder o st2 parts).1 }
    else
      { state := st2
        events := ev1 ++ ev2 ++ (suggestionBuilder o st2 parts).2
        rendered := some (suggestionBuilder o st2 parts).1 }

/-- Result of `selectSuggestion`: new context, events (including those of the
re-entrant `handleInput` call), and the rewritten input value. -/
structure SelResult where
  state : WidgetState
  events : List Event
  inputValue : Option String
deriving DecidableEq

/-- `selectSuggestion` (lines 819-863). -/
def selectSuggestion (o : Oracle) (st : WidgetState) (item : Suggestion) : SelResult :=
  match item.kind with
  | .complete =>
    let rp := mapToRuianPlace item.data.view item.value
    let st' := { st with
      municipalityId := item.data.munId
      municipalityName := item.data.munName
      zip := item.data.zipAcc
      streetName := jsNullify item.data.streetAcc }
    { state := st', events := [Event.callback (some true) (some rp)],
      inputValue := some item.value }
  | .municipality =>
    let st' := { st with
      municipalityId := item.data.munId
      municipalityName := item.data.munName
      zip := item.data.zipAcc
      streetName := none }
    let newVal := jsShow item.data.munName ++ ", "
    let r := handleInput o st' newVal
    { state := r.state, events := r.events, inputValue := some newVal }
  | .street =>
    let st' := { st with streetName := some item.value }
    let newVal := jsShow st'.municipalityName ++ ", " ++ item.value ++ ", "
    let r := handleInput o st' newVal
    { state := r.state, events := r.events, inputValue := some newVal }
  | .place =>
    let zip := jsOr item.data.placeZipAcc st.zip
    let pre := jsShow st.municipalityName ++ ", " ++
      (if truthyS st.streetName then jsShow st.streetName ++ ", " else "")
    let newVal := pre ++ item.value ++ ", " ++ formatZip zip
    let r := handleInput o st newVal
    { state := r.state, events := r.events, inputValue := some newVal }

/-! ## Trace lemmas for the state machine -/

theorem isIncSearch_isQuery (e : Event) (h : e.isIncSearch = true) : e.isQuery = true := by
  cases e <;> simp_all [Event.isIncSearch, Event.isQuery]

theorem splitList_ne_nil (c : Char) : ∀ (l : List Char), splitList c l ≠ []
  | [] => by simp [splitList]
  | x :: xs => by
    unfold splitList
    by_cases hx : x = c
    · simp [hx]
    · cases hr : splitList c xs with
      | nil => simp [hx, hr]
      | cons h t => simp [hx, hr]

theorem splitList_length (c : Char) : ∀ (l : List Char),
    (splitList c l).length = l.count c + 1
  | [] => by simp [splitList]
  | x :: xs => by
    have ih := splitList_length c xs
    unfold splitList
    by_cases hx : x = c
    · subst hx
      simp [List.count_cons_self, ih]
    · cases hr : splitList c xs with
      | nil => exact absurd hr (splitList_ne_nil c xs)
      | cons h t =>
        rw [hr] at ih
        simp only [List.length_cons] at ih
        have hcx : ¬ (c = x) := fun hcc => hx hcc.symm
        simp [hx, hr, List.count_cons, hcx, ih]

theorem handleParts_length (value : String) :
    (handleParts value).length = value.data.count ',' + 1 := by
  simp [handleParts, splitList_length]

theorem mem_dropWhile_of_neg {α : Type} (p : α → Bool) :
    ∀ (l : List α) (x : α), x ∈ l → p x = false → x ∈ l.dropWhile p
  | a :: as, x, hm, hx => by
    by_cases ha : p a = true
    · rw [List.dropWhile_cons_of_pos ha]
      rcases List.mem_cons.mp hm with rfl | hmem
      · rw [ha] at hx
        cases hx
      · exact mem_dropWhile_of_neg p as x hmem hx
    · rw [List.dropWhile_cons_of_neg ha]
      exact hm

theorem jsTrim_pos_of_digit (value : String)
    (hdig : value.data.any Char.isDigit = true) :
    1 ≤ (jsTrim value).data.length := by
  obtain ⟨c, hc, hcd⟩ := List.any_eq_true.mp hdig
  have h1 : c ∈ value.data.dropWhile isWs :=
    mem_dropWhile_of_neg isWs value.data c hc (isWs_eq_false_of_isDigit c hcd)
  have h2 : c ∈ (value.data.dropWhile isWs).reverse := List.mem_reverse.mpr h1
  have h3 : c ∈ (value.data.dropWhile isWs).reverse.dropWhile isWs :=
    mem_dropWhile_of_neg isWs _ c h2 (isWs_eq_false_of_isDigit c hcd)
  have h4 : c ∈ ((value.data.dropWhile isWs).reverse.dropWhile isWs).reverse :=
    List.mem_reverse.mpr h3
  have h5 : (jsTrim value).data ≠ [] := by
    simpa [jsTrim] using List.ne_nil_of_mem h4
  exact List.length_pos.mpr h5

theorem resetCheck_events (st : WidgetState) (value : String) (parts : List String) :
    (resetCheck st value parts).2 = [] ∨ (resetCheck st value parts).2 = [Event.reset] := by
  unfold resetCheck
  split
  · split
    · exact Or.inr rfl
    · exact Or.inl rfl
  · exact Or.inl rfl

theorem autoSelectMun_events (o : Oracle) (st : WidgetState) (parts : List String) :
    (autoSelectMun o st parts).2 = [] ∨
      ∃ q, (autoSelectMun o st parts).2 = [Event.munSearch q] := by
  unfold autoSelectMun
  dsimp only
  split
  · split
    · split
      · exact Or.inr ⟨_, rfl⟩
      · exact Or.inr ⟨_, rfl⟩
    · exact Or.inl rfl
  · exact Or.inl rfl

theorem autoSelectStreet_events (o : Oracle) (st : WidgetState) (parts : List String) :
    (autoSelectStreet o st parts).2 = [] ∨
      ∃ mid q, (autoSelectStreet o st parts).2 = [Event.streetSearch mid q] := by
  unfold autoSelectStreet
  dsimp only
  split
  · split
    · split
      · exact Or.inr ⟨_, _, rfl⟩
      · exact Or.inr ⟨_, _, rfl⟩
    · exact Or.inl rfl
  · exact Or.inl rfl

theorem tryAuto_events_inc (o : Oracle) (st : WidgetState) (parts : List String) :
    ∀ e ∈ (tryAutoSelectContext o st parts).2, e.isIncSearch = true := by
  intro e he
  simp only [tryAutoSelectContext] at he
  rcases List.mem_append.mp he with he | he
  · rcases autoSelectMun_events o st parts with h | ⟨q, h⟩ <;> rw [h] at he
    · cases he
    · simp at he
      subst he
      rfl
  · rcases autoSelectStreet_events o (autoSelectMun o st parts).1 parts with h | ⟨mid, q, h⟩ <;>
      rw [h] at he
    · cases he
    · simp at he
      subst he
      rfl

theorem suggestionBuilder_events_inc (o : Oracle) (st : WidgetState) (parts : List String) :
    ∀ e ∈ (suggestionBuilder o st parts).2, e.isIncSearch = true := by
  intro e he
  unfold suggestionBuilder at he
  dsimp only at he
  split at he
  · split at he <;> simp at he
    · rcases he with rfl | rfl <;> rfl
    · subst he
      rfl
  · split at he
    · split at he <;> simp at he
      · rcases he with rfl | rfl <;> rfl
      · subst he
        rfl
    · simp at he
      subst he
      rfl

theorem suggestionBuilder_events_ne_nil (o : Oracle) (st : WidgetState) (parts : List String) :
    (suggestionBuilder o st parts).2 ≠ [] := by
  unfold suggestionBuilder
  dsimp only
  split
  · split <;> simp
  · split
    · split <;> simp
    · simp

/-- The events of a non-empty-input `handleInput` pass decompose as the reset
step's events followed by auto-selection searches, the validation call, one
callback, and the incremental searches. -/
theorem handleInput_events_split (o : Oracle) (st : WidgetState) (value : String)
    (hne : ¬ (jsTrim value).data.length < 1) :
    ∃ rest, (handleInput o st value).events =
        (resetCheck st value (handleParts value)).2 ++ rest ∧
      ∀ e ∈ rest, e.isIncSearch = true ∨ (∃ q, e = Event.validateCall q) ∨
        e = Event.callback (some false) none ∨
        ∃ p : VPlace, e = Event.callback (some true) (some (mapToRuianPlace p.view value)) := by
  simp only [handleInput, if_neg hne]
  have hauto := tryAuto_events_inc o (resetCheck st value (handleParts value)).1 (handleParts value)
  have hsb := suggestionBuilder_events_inc o (stage2State o st value) (handleParts value)
  split
  · split
    case _ p hp =>
      refine ⟨_, by rw [List.append_assoc], ?_⟩
      intro e he
      rcases List.mem_append.mp he with he | he
      · exact Or.inl (hauto e he)
      · simp at he
        rcases he with rfl | rfl
        · exact Or.inr (Or.inl ⟨value, rfl⟩)
        · exact Or.inr (Or.inr (Or.inr ⟨p, rfl⟩))
    case _ hp =>
      refine ⟨_, by rw [List.append_assoc], ?_⟩
      intro e he
      rcases List.mem_append.mp he with he | he
      · exact Or.inl (hauto e he)
      · rcases List.mem_cons.mp he with rfl | he
        · exact Or.inr (Or.inl ⟨value, rfl⟩)
        · rcases List.mem_cons.mp he with rfl | he
          · exact Or.inr (Or.inr (Or.inl rfl))
          · exact Or.inl (hsb e he)
  · refine ⟨_, by rw [List.append_assoc], ?_⟩
    intro e he
    rcases List.mem_append.mp he with he | he
    · exact Or.inl (hauto e he)
    · exact Or.inl (hsb e he)

/-- Shape of a full-address pass with a `MATCH` result. -/
theorem handleInput_eq_of_match (o : Oracle) (st : WidgetState) (value : String)
    (hne : ¬ (jsTrim value).data.length < 1)
    (hg : (decide (value.data.length > 5) && value.data.any Char.isDigit) = true)
    {p : VPlace}
    (hmp : matchedPlace (apiValidateResult o value (stage2State o st value)) = some p) :
    handleInput o st value =
      { state := stage2State o st value
        events := (resetCheck st value (handleParts value)).2 ++
          (tryAutoSelectContext o (resetCheck st value (handleParts value)).1
            (handleParts value)).2 ++
          [Event.validateCall value,
            Event.callback (some true) (some (mapToRuianPlace p.view value))]
        rendered := some (if normalizeWs value != normalizeWs (postalLabel p)
          then [completeSuggestion p] else []) } := by
  unfold handleInput
  rw [if_neg hne]
  dsimp only
  split
  · split
    case _ q hq =>
      rw [hmp] at hq
      injection hq with hq'
      subst hq'
      rfl
    case _ hq =>
      rw [hq] at hmp
      cases hmp
  · case _ hguard => exact absurd hg hguard

/-- Shape of a full-address pass without a `MATCH` result. -/
theorem handleInput_eq_of_nomatch (o : Oracle) (st : WidgetState) (value : String)
    (hne : ¬ (jsTrim value).data.length < 1)
    (hg : (decide (value.data.length > 5) && value.data.any Char.isDigit) = true)
    (hmp : matchedPlace (apiValidateResult o value (stage2State o st value)) = none) :
    handleInput o st value =
      { state := stage2State o st value
        events := (resetCheck st value (handleParts value)).2 ++
          (tryAutoSelectContext o (resetCheck st value (handleParts value)).1
            (handleParts value)).2 ++
          Event.validateCall value :: Event.callback (some false) none ::
            (suggestionBuilder o (stage2State o st value) (handleParts value)).2
        rendered := some (suggestionBuilder o (stage2State o st value) (handleParts value)).1 } := by
  unfold handleInput
  rw [if_neg hne]
  dsimp only
  split
  · split
    case _ q hq =>
      rw [hmp] at hq
      cases hq
    case _ hq => rfl
  · case _ hguard => exact absurd hg hguard

/-- **C4.** At segment index 0 (no comma in the text) with a remembered
municipality, `handleInput` resets the context to empty exactly when the text
is not a case-insensitive prefix of the remembered name compared over the
shorter of the two lengths; the reset, when it happens, is the very first
recorded action (in particular it precedes every registry query of the pass),
and on a prefix match the reset step leaves the context unchanged. -/
theorem handleInput_resetOnEdit (o : Oracle) (st : WidgetState) (value : String)
    (hnc : ',' ∉ value.data)
    (hmun : truthyS st.municipalityName = true)
    (hne : 1 ≤ (jsTrim value).data.length) :
    ((Event.reset ∈ (handleInput o st value).events) ↔
      prefixKeepCond (st.municipalityName.getD "") value = false) ∧
    (∀ i, (handleInput o st value).events[i]? = some Event.reset → i = 0) ∧
    ((resetCheck st value (handleParts value)).1 =
      if prefixKeepCond (st.municipalityName.getD "") value then st else emptyState) ∧
    (prefixKeepCond (st.municipalityName.getD "") value = false →
      ∀ j e, (handleInput o st value).events[j]? = some e → e.isQuery = true → 0 < j) := by
  have hne' : ¬ (jsTrim value).data.length < 1 := by omega
  have hp1 : (handleParts value).length = 1 := by
    rw [handleParts_length, List.count_eq_zero.mpr hnc]
  have hcond : ((handleParts value).length == 1 && truthyS st.municipalityName) = true := by
    simp [hp1, hmun]
  obtain ⟨rest, hsplit, hrest⟩ := handleInput_events_split o st value hne'
  have hnr : Event.reset ∉ rest := by
    intro hmem
    rcases hrest _ hmem with h | ⟨q, h⟩ | h | ⟨p, h⟩
    · simp [Event.isIncSearch] at h
    · exact Event.noConfusion h
    · exact Event.noConfusion h
    · exact Event.noConfusion h
  cases hb : prefixKeepCond (st.municipalityName.getD "") value with
  | false =>
    have hrc : resetCheck st value (handleParts value) = (resetState, [Event.reset]) := by
      simp [resetCheck, hcond, hb]
    refine ⟨?_, ?_, ?_, ?_⟩
    · rw [hsplit, hrc]
      simp
    · intro i hi
      rw [hsplit, hrc, List.singleton_append] at hi
      cases i with
      | zero => rfl
      | succ n =>
        rw [List.getElem?_cons_succ] at hi
        exact absurd (List.getElem?_mem hi) hnr
    · rw [hrc]
      simp [hb, resetState]
    · intro _ j e hj hq
      rw [hsplit, hrc, List.singleton_append] at hj
      cases j with
      | zero =>
        rw [List.getElem?_cons_zero] at hj
        injection hj with hj'
        subst hj'
        simp [Event.isQuery] at hq
      | succ n => omega
  | true =>
    have hrc : resetCheck st value (handleParts value) = (st, []) := by
      simp [resetCheck, hcond, hb]
    refine ⟨?_, ?_, ?_, ?_⟩
    · rw [hsplit, hrc, List.nil_append]
      simp only [Bool.true_eq_false, iff_false]
      exact hnr
    · intro i hi
      rw [hsplit, hrc, List.nil_append] at hi
      exact absurd (List.getElem?_mem hi) hnr
    · rw [hrc, if_pos rfl]
    · intro hkf
      cases hkf

/-- Concrete context for the C4 witness. -/
def prahaState : WidgetState :=
  { municipalityId := some 1, municipalityName := some "Praha", zip := none,
    streetName := none }

/-- Witness for `handleInput_resetOnEdit`: editing the first segment from
"Praha" to "Brn" resets the context before anything else. -/
theorem handleInput_resetOnEdit_witness :
    ((Event.reset ∈ (handleInput demoOracle prahaState "Brn").events) ↔
      prefixKeepCond (prahaState.municipalityName.getD "") "Brn" = false) ∧
    ((resetCheck prahaState "Brn" (handleParts "Brn")).1 =
      if prefixKeepCond (prahaState.municipalityName.getD "") "Brn" then prahaState
      else emptyState) :=
  ⟨(handleInput_resetOnEdit demoOracle prahaState "Brn" (by decide) (by decide) (by decide)).1,
   (handleInput_resetOnEdit demoOracle prahaState "Brn" (by decide) (by decide)
      (by decide)).2.2.1⟩

/-! ## The context invariant (C5) -/

/-- The invariant "municipalityName set ⇒ municipalityId set", as a boolean. -/
def stateInvB (st : WidgetState) : Bool :=
  !st.municipalityName.isSome || st.municipalityId.isSome

theorem suggData_inv (d : SuggData) :
    (!(d.munName).isSome || (d.munId).isSome) = true := by
  cases d <;> rfl

theorem resetCheck_inv (st : WidgetState) (value : String) (parts : List String)
    (h : stateInvB st = true) : stateInvB (resetCheck st value parts).1 = true := by
  unfold resetCheck
  split
  · split
    · rfl
    · exact h
  · exact h

theorem autoSelectMun_inv (o : Oracle) (st : WidgetState) (parts : List String)
    (h : stateInvB st = true) : stateInvB (autoSelectMun o st parts).1 = true := by
  unfold autoSelectMun
  dsimp only
  split
  · split
    · split
      case _ mtc _ => simpa [stateInvB] using suggData_inv mtc.data
      · exact h
    · exact h
  · exact h

theorem autoSelectStreet_inv (o : Oracle) (st : WidgetState) (parts : List String)
    (h : stateInvB st = true) : stateInvB (autoSelectStreet o st parts).1 = true := by
  unfold autoSelectStreet
  dsimp only
  split
  · split
    · split
      · exact h
      · exact h
    · exact h
  · exact h

theorem tryAuto_inv (o : Oracle) (st : WidgetState) (parts : List String)
    (h : stateInvB st = true) : stateInvB (tryAutoSelectContext o st parts).1 = true :=
  autoSelectStreet_inv o _ parts (autoSelectMun_inv o st parts h)

theorem stage2_inv (o : Oracle) (st : WidgetState) (value : String)
    (h : stateInvB st = true) : stateInvB (stage2State o st value) = true :=
  tryAuto_inv o _ _ (resetCheck_inv st value _ h)

theorem handleInput_inv (o : Oracle) (st : WidgetState) (value : String)
    (h : stateInvB st = true) : stateInvB (handleInput o st value).state = true := by
  unfold handleInput
  dsimp only
  split
  · exact h
  · split
    · split
      · exact stage2_inv o st value h
      · exact stage2_inv o st value h
    · exact stage2_inv o st value h

theorem selectSuggestion_inv (o : Oracle) (st : WidgetState) (item : Suggestion)
    (h : stateInvB st = true) : stateInvB (selectSuggestion o st item).state = true := by
  unfold selectSuggestion
  dsimp only
  split
  · simpa [stateInvB] using suggData_inv item.data
  · exact handleInput_inv o _ _ (by simpa [stateInvB] using suggData_inv item.data)
  · exact handleInput_inv o _ _ h
  · exact handleInput_inv o _ _ h

/-- **C5.** The context invariant "municipalityName set ⇒ municipalityId set"
holds in the empty initial context and is preserved by every context mutator:
auto-context detection, suggestion selection of any type (including its
re-entrant resolution pass), and the wholesale reset. -/
theorem contextInvariant :
    (∀ st : WidgetState, stateInvB st = true ↔
      (st.municipalityName.isSome = true → st.municipalityId.isSome = true)) ∧
    stateInvB emptyState = true ∧
    stateInvB resetState = true ∧
    (∀ (o : Oracle) (st : WidgetState) (parts : List String),
      stateInvB st = true → stateInvB (tryAutoSelectContext o st parts).1 = true) ∧
    (∀ (o : Oracle) (st : WidgetState) (item : Suggestion),
      stateInvB st = true → stateInvB (selectSuggestion o st item).state = true) ∧
    (∀ (st : WidgetState) (value : String) (parts : List String),
      stateInvB st = true → stateInvB (resetCheck st value parts).1 = true) := by
  refine ⟨?_, rfl, rfl, fun o st parts h => tryAuto_inv o st parts h,
    fun o st item h => selectSuggestion_inv o st item h,
    fun st value parts h => resetCheck_inv st value parts h⟩
  intro st
  rcases st with ⟨mid, mname, z, sn⟩
  cases mname <;> cases mid <;> simp [stateInvB]

/-- Witness for `contextInvariant` at a concrete mutator application. -/
theorem contextInvariant_witness :
    stateInvB resetState = true ∧
    stateInvB (selectSuggestion demoOracle emptyState
      (munSuggestion demoOracle [] lhotaA)).state = true :=
  ⟨contextInvariant.2.2.1,
   contextInvariant.2.2.2.2.1 demoOracle emptyState (munSuggestion demoOracle [] lhotaA)
     contextInvariant.2.1⟩

/-! ## Callback shapes (C9) -/

/-- The three legal shapes of an `onValidationChange` invocation. -/
def cbShapeOK (v : Option Bool) (pl : Option RuianPlace) : Prop :=
  (v = some true ∧ ∃ rp, pl = some rp ∧ rp.valid = true) ∨
  (v = some false ∧ pl = none) ∨ (v = none ∧ pl = none)

theorem handleInput_callbacks (o : Oracle) (st : WidgetState) (value : String) :
    ∀ v pl, Event.callback v pl ∈ (handleInput o st value).events → cbShapeOK v pl := by
  intro v pl hmem
  by_cases hne : (jsTrim value).data.length < 1
  · simp only [handleInput, if_pos hne] at hmem
    simp at hmem
    exact Or.inr (Or.inr hmem)
  · obtain ⟨rest, hsplit, hrest⟩ := handleInput_events_split o st value hne
    rw [hsplit] at hmem
    rcases List.mem_append.mp hmem with hm | hm
    · rcases resetCheck_events st value (handleParts value) with h | h <;>
        rw [h] at hm <;> simp at hm
    · rcases hrest _ hm with h | ⟨q, h⟩ | h | ⟨p, h⟩
      · simp [Event.isIncSearch] at h
      · exact Event.noConfusion h
      · simp only [Event.callback.injEq] at h
        exact Or.inr (Or.inl ⟨h.1, h.2⟩)
      · simp only [Event.callback.injEq] at h
        exact Or.inl ⟨h.1, mapToRuianPlace p.view value, h.2, rfl⟩

theorem selectSuggestion_callbacks (o : Oracle) (st : WidgetState) (item : Suggestion) :
    ∀ v pl, Event.callback v pl ∈ (selectSuggestion o st item).events → cbShapeOK v pl := by
  intro v pl hmem
  unfold selectSuggestion at hmem
  dsimp only at hmem
  split at hmem
  · simp at hmem
    exact Or.inl ⟨hmem.1, mapToRuianPlace item.data.view item.value, hmem.2, rfl⟩
  · exact handleInput_callbacks o _ _ v pl hmem
  · exact handleInput_callbacks o _ _ v pl hmem
  · exact handleInput_callbacks o _ _ v pl hmem

/-- **C9.** Every `onValidationChange` invocation emitted by a resolution pass
or a suggestion selection has one of the three shapes
`(true, {RUIANplace: p})` with `p.valid = true`, `(false, null)`, or
`(null, null)`; in particular the payload is non-null iff the first argument
is `true`. -/
theorem callbackShape (o : Oracle) (st : WidgetState) (value : String)
    (item : Suggestion) (v : Option Bool) (pl : Option RuianPlace) :
    (Event.callback v pl ∈ (handleInput o st value).events →
      cbShapeOK v pl ∧ (pl.isSome = true ↔ v = some true)) ∧
    (Event.callback v pl ∈ (selectSuggestion o st item).events →
      cbShapeOK v pl ∧ (pl.isSome = true ↔ v = some true)) := by
  have hiff : ∀ (v' : Option Bool) (pl' : Option RuianPlace),
      cbShapeOK v' pl' → (pl'.isSome = true ↔ v' = some true) := by
    intro v' pl' h
    rcases h with ⟨rfl, rp, rfl, _⟩ | ⟨rfl, rfl⟩ | ⟨rfl, rfl⟩ <;> simp
  exact ⟨fun h => ⟨handleInput_callbacks o st value v pl h,
      hiff v pl (handleInput_callbacks o st value v pl h)⟩,
    fun h => ⟨selectSuggestion_callbacks o st item v pl h,
      hiff v pl (selectSuggestion_callbacks o st item v pl h)⟩⟩

/-- Witness for `callbackShape`: the neutral callback of an empty input. -/
theorem callbackShape_witness :
    cbShapeOK none none ∧
    ((none : Option RuianPlace).isSome = true ↔ (none : Option Bool) = some true) :=
  (callbackShape demoOracle emptyState " " (munSuggestion demoOracle [] lhotaA)
    none none).1 (by decide)

/-! ## The full-address branch (C1) -/

/-- **C1.** For input longer than 5 characters containing a digit,
`handleInput` always performs the registry validation call.  On a `MATCH` it
emits the success callback with the built `RUIANplace` and ends the pass right
after rendering — no incremental search happens after the validation call, and
the rendered list consists of exactly one `complete`-type correction
suggestion iff the canonical postal label and the input differ after
whitespace normalization (otherwise it is empty).  On any non-`MATCH` result
it emits the failure callback `(false, null)` and still runs the incremental
suggestion builder, rendering its result. -/
theorem handleInput_fullAddress (o : Oracle) (st : WidgetState) (value : String)
    (hlen : value.data.length > 5) (hdig : value.data.any Char.isDigit = true) :
    (Event.validateCall value ∈ (handleInput o st value).events) ∧
    (∀ p : VPlace,
      matchedPlace (apiValidateResult o value (stage2State o st value)) = some p →
      (∃ pre, (handleInput o st value).events =
          pre ++ [Event.validateCall value,
            Event.callback (some true) (some (mapToRuianPlace p.view value))] ∧
        ∀ e ∈ pre, e.isIncSearch = true ∨ e = Event.reset) ∧
      (handleInput o st value).rendered =
        some (if normalizeWs value != normalizeWs (postalLabel p)
          then [completeSuggestion p] else []) ∧
      (((handleInput o st value).rendered.getD []).countP
          (fun s => s.kind == SuggKind.complete) =
        if normalizeWs value != normalizeWs (postalLabel p) then 1 else 0)) ∧
    (matchedPlace (apiValidateResult o value (stage2State o st value)) = none →
      (∃ pre, (handleInput o st value).events =
          pre ++ Event.validateCall value :: Event.callback (some false) none ::
            (suggestionBuilder o (stage2State o st value) (handleParts value)).2 ∧
        ∀ e ∈ pre, e.isIncSearch = true ∨ e = Event.reset) ∧
      (suggestionBuilder o (stage2State o st value) (handleParts value)).2 ≠ [] ∧
      (∀ e ∈ (suggestionBuilder o (stage2State o st value) (handleParts value)).2,
        e.isIncSearch = true) ∧
      (handleInput o st value).rendered =
        some (suggestionBuilder o (stage2State o st value) (handleParts value)).1) := by
  have hne' : ¬ (jsTrim value).data.length < 1 := by
    have := jsTrim_pos_of_digit value hdig
    omega
  have hg : (decide (value.data.length > 5) && value.data.any Char.isDigit) = true := by
    rw [Bool.and_eq_true, decide_eq_true_eq]
    exact ⟨hlen, hdig⟩
  have hpre : ∀ e ∈ (resetCheck st value (handleParts value)).2 ++
      (tryAutoSelectContext o (resetCheck st value (handleParts value)).1
        (handleParts value)).2,
      e.isIncSearch = true ∨ e = Event.reset := by
    intro e he
    rcases List.mem_append.mp he with he | he
    · rcases resetCheck_events st value (handleParts value) with h | h <;> rw [h] at he
      · cases he
      · simp at he
        subst he
        exact Or.inr rfl
    · exact Or.inl (tryAuto_events_inc o _ _ e he)
  rcases hmp : matchedPlace (apiValidateResult o value (stage2State o st value)) with _ | p
  · have he := handleInput_eq_of_nomatch o st value hne' hg hmp
    refine ⟨?_, ?_, ?_⟩
    · rw [he]
      simp
    · intro p hp
      cases hp
    · intro _
      refine ⟨⟨_, ?_, hpre⟩, suggestionBuilder_events_ne_nil o _ _,
        suggestionBuilder_events_inc o _ _, ?_⟩
      · rw [he, List.append_assoc]
      · rw [he]
  · have he := handleInput_eq_of_match o st value hne' hg hmp
    refine ⟨?_, ?_, ?_⟩
    · rw [he]
      simp
    · intro q hq
      injection hq with hq'
      subst hq'
      refine ⟨⟨_, ?_, hpre⟩, ?_, ?_⟩
      · rw [he, List.append_assoc]
      · rw [he]
      · rw [he]
        by_cases hd : (normalizeWs value != normalizeWs (postalLabel p)) = true
        · simp [hd, completeSuggestion]
        · rw [Bool.not_eq_true] at hd
          simp [hd]
    · intro hq
      cases hq

/-- A concrete `MATCH` place and oracle for the C1 witness. -/
def demoVPlace : VPlace :=
  { municipalityId := 554782, municipalityName := "Praha", municipalityPartId := none,
    municipalityPartName := none, streetName := some "Dlouha", ce := none,
    cp := some "12", co := none, zip := some "11000", id := 99, regionId := none,
    regionName := none }

def demoOracleV : Oracle :=
  { apiKey := "k", catalog := [], zipOf := fun _ => none, streetsOf := fun _ => none,
    placesOf := fun _ _ => none,
    validateO := fun _ _ => some { status := "MATCH", place := some demoVPlace } }

/-- Witness for `handleInput_fullAddress` on a concrete `MATCH` pass. -/
theorem handleInput_fullAddress_witness :
    Event.validateCall "Dlouha 12" ∈ (handleInput demoOracleV emptyState "Dlouha 12").events ∧
    (handleInput demoOracleV emptyState "Dlouha 12").rendered =
      some (if normalizeWs "Dlouha 12" != normalizeWs (postalLabel demoVPlace)
        then [completeSuggestion demoVPlace] else []) :=
  ⟨(handleInput_fullAddress demoOracleV emptyState "Dlouha 12" (by decide) (by decide)).1,
   ((handleInput_fullAddress demoOracleV emptyState "Dlouha 12" (by decide) (by decide)).2.1
      demoVPlace (by decide)).2.1⟩

/-! ## ZIP fetch with tiered fallback (`fetchMunicipalityZip`, lines 239-297) -/

/-- `data.place` of the tier-1 `validate` response. -/
structure ZPlaceItem where
  zip : Option String
  placeZip : Option String
deriving DecidableEq

/-- One row of a `build/places` response. -/
structure ZListItem where
  placeZip : Option String
  zip : Option String
deriving DecidableEq

/-- One row of a `build/streets` response. -/
structure ZStreetItem where
  streetName : Option String
deriving DecidableEq

/-- A JSON payload that the code duck-reads either as `{data: [...]}` or as a
bare array (`resp && resp.data ? resp.data : resp`). -/
inductive JResp (A : Type) where
  | null
  | withData (l : List A)
  | bare (l : List A)
deriving DecidableEq

/-- The first row the code manages to extract from such a payload: `null`
yields nothing; an object whose `data` list is empty falls through both
branches (the object has no `length`); non-empty lists yield their head. -/
def jrespFirst {A : Type} : JResp A → Option A
  | .null => none
  | .withData l => l.head?
  | .bare l => l.head?

/-- Registry responses seen by one `fetchMunicipalityZip` call for a fixed
municipality: the tier-1 validate place (already `data && data.place`), the
tier-2 `streetName=-` place list, the tier-3 street list, and the tier-3 place
list per street name. -/
structure ZOracle where
  validatePlace : Option ZPlaceItem
  placesDash : JResp ZListItem
  streetsResp : JResp ZStreetItem
  placesFor : Option String → JResp ZListItem

/-- Tier 1 (lines 247-255): `zip = data.place.zip || data.place.placeZip`. -/
def zipTier1 (o : ZOracle) : Option String :=
  match o.validatePlace with
  | some pl => jsOr pl.zip pl.placeZip
  | none => none

/-- Tier 2 (lines 258-270), entered only when `zip` is still falsy. -/
def zipTier2 (o : ZOracle) (z : Option String) : Option String :=
  if truthyS z then z
  else
    match jrespFirst o.placesDash with
    | some it => jsOr it.placeZip it.zip
    | none => z

/-- Tier 3 (lines 273-290): first street, then first place on that street. -/
def zipTier3 (o : ZOracle) (z : Option String) : Option String :=
  if truthyS z then z
  else
    match jrespFirst o.streetsResp with
    | some street =>
      match jrespFirst (o.placesFor street.streetName) with
      | some it => jsOr it.placeZip it.zip
      | none => z
    | none => z

/-- The whole three-tier chain. -/
def zipTierChain (o : ZOracle) : Option String := zipTier3 o (zipTier2 o (zipTier1 o))

/-- `this.zipCache[id]`, modelled as an association list (later writes win). -/
def zipCacheLookup (cache : List (Nat × String)) (id : Nat) : Option String :=
  (cache.find? (fun e => e.1 == id)).map (fun e => e.2)

/-- `fetchMunicipalityZip` (lines 239-297): serve a truthy cached value;
otherwise run the tier chain and cache the result only when it is truthy. -/
def fetchMunicipalityZip (env : Nat → ZOracle) (cache : List (Nat × String))
    (id : Nat) : Option String × List (Nat × String) :=
  let cached := zipCacheLookup cache id
  if truthyS cached then (cached, cache)
  else
    let z := zipTierChain (env id)
    if truthyS z then (z, (id, z.getD "") :: cache) else (none, cache)

theorem truthyS_iff (z : Option String) :
    truthyS z = true ↔ ∃ s, z = some s ∧ s ≠ "" := by
  cases z <;> simp [truthyS]

/-- **C10.** `fetchMunicipalityZip` writes to the ZIP sub-cache only when the
tier chain yields a non-empty ZIP; when every tier fails it returns `null` and
leaves the cache unchanged, so an immediately repeated call for the same
municipality re-runs the full chain (and returns the same outcome) instead of
serving a cached failure. -/
theorem fetchMunicipalityZip_cacheDiscipline (env : Nat → ZOracle)
    (cache : List (Nat × String)) (id : Nat) :
    ((fetchMunicipalityZip env cache id).1 = none →
      (fetchMunicipalityZip env cache id).2 = cache) ∧
    ((fetchMunicipalityZip env cache id).1 = none →
      fetchMunicipalityZip env (fetchMunicipalityZip env cache id).2 id =
        fetchMunicipalityZip env cache id) ∧
    ((fetchMunicipalityZip env cache id).2 ≠ cache →
      ∃ z, zipTierChain (env id) = some z ∧ z ≠ "" ∧
        (fetchMunicipalityZip env cache id).1 = some z ∧
        (fetchMunicipalityZip env cache id).2 = (id, z) :: cache) ∧
    (truthyS (zipCacheLookup cache id) = false →
      truthyS (zipTierChain (env id)) = false →
      (fetchMunicipalityZip env cache id).1 = none ∧
      (fetchMunicipalityZip env cache id).2 = cache) := by
  by_cases hcz : truthyS (zipCacheLookup cache id) = true
  · obtain ⟨s, hs, hsne⟩ := (truthyS_iff _).mp hcz
    have hres : fetchMunicipalityZip env cache id = (some s, cache) := by
      unfold fetchMunicipalityZip
      dsimp only
      rw [if_pos hcz, hs]
    refine ⟨?_, ?_, ?_, ?_⟩
    · intro h
      rw [hres] at h
      exact Option.noConfusion h
    · intro h
      rw [hres] at h
      exact Option.noConfusion h
    · intro h
      rw [hres] at h
      exact absurd rfl h
    · intro h
      rw [h] at hcz
      cases hcz
  · by_cases htz : truthyS (zipTierChain (env id)) = true
    · obtain ⟨z, hz, hzne⟩ := (truthyS_iff _).mp htz
      have hres : fetchMunicipalityZip env cache id = (some z, (id, z) :: cache) := by
        unfold fetchMunicipalityZip
        dsimp only
        rw [if_neg hcz, if_pos htz, hz]
        rfl
      refine ⟨?_, ?_, ?_, ?_⟩
      · intro h
        rw [hres] at h
        exact Option.noConfusion h
      · intro h
        rw [hres] at h
        exact Option.noConfusion h
      · intro _
        exact ⟨z, hz, hzne, by rw [hres], by rw [hres]⟩
      · intro _ h
        rw [h] at htz
        cases htz
    · have htz' : truthyS (zipTierChain (env id)) = false := by
        cases h : truthyS (zipTierChain (env id))
        · rfl
        · exact absurd h htz
      have hres : fetchMunicipalityZip env cache id = (none, cache) := by
        unfold fetchMunicipalityZip
        dsimp only
        rw [if_neg hcz, if_neg htz]
      refine ⟨?_, ?_, ?_, ?_⟩
      · intro _
        rw [hres]
      · intro _
        rw [hres]
        exact hres
      · intro h
        rw [hres] at h
        exact absurd rfl h
      · intro _ _
        exact ⟨by rw [hres], by rw [hres]⟩

/-- An environment whose three tiers all fail. -/
def zFailEnv : Nat → ZOracle := fun _ =>
  { validatePlace := none, placesDash := .null, streetsResp := .null,
    placesFor := fun _ => .null }

/-- Witness for `fetchMunicipalityZip_cacheDiscipline`: with all tiers failing,
the call returns `null` and the cache stays empty. -/
theorem fetchMunicipalityZip_cacheDiscipline_witness :
    (fetchMunicipalityZip zFailEnv [] 7).1 = none ∧
    (fetchMunicipalityZip zFailEnv [] 7).2 = [] :=
  (fetchMunicipalityZip_cacheDiscipline zFailEnv [] 7).2.2.2 (by decide) (by decide)

/-! ## Single-flight catalog load (`loadAllMunicipalities`, lines 155-208)

The JS event loop is modelled as an interleaving semantics: each concurrent
call of `loadAllMunicipalities` is a task that runs atomically between
`await` points; a schedule picks which suspended task resumes next.  `N`
concurrent invocations execute their synchronous entry blocks first (in call
order — nothing can interleave with synchronous code), then an arbitrary
schedule resumes the suspended tasks. -/

namespace SingleFlight

/-- Outcome of one per-region `fetchJson` during the catalog load: a usable
`data` list (already mapped to catalog rows), a null/shapeless response
(silently skipped), or an exception reaching the `try` block's `catch`. -/
inductive FetchOutcome where
  | ok (ms : List Municipality)
  | null
  | err
deriving DecidableEq

/-- The 14 fixed region codes iterated by the loader (line 179). -/
def regionCount : Nat := 14

/-- One cooperative task: about to run its synchronous entry block, suspended
at the fetch of region `k` with accumulator `acc`, polling in the wait loop,
or finished with its return value. -/
inductive TaskPC where
  | entry
  | fetching (k : Nat) (acc : List Municipality)
  | waiting
  | done (res : List Municipality)
deriving DecidableEq

def TaskPC.isDone : TaskPC → Bool
  | .done _ => true
  | _ => false

/-- Shared fields `this.allMunicipalities` and `this.municipalitiesLoading`,
plus an instrumentation counter of started full-fetch sequences. -/
structure Shared where
  mem : Option (List Municipality)
  loading : Bool
  starts : Nat
deriving DecidableEq

structure Config where
  shared : Shared
  tasks : List TaskPC
deriving DecidableEq

/-- The environment: the external TTL cache consulted by the entry block, and
the deterministic per-region fetch results. -/
structure LoadEnv where
  cache : Option (List Municipality)
  fetch : Nat → FetchOutcome

/-- The catalog accumulated after the first `k` regions. -/
def accUpTo (env : LoadEnv) : Nat → List Municipality
  | 0 => []
  | k + 1 => accUpTo env k ++ (match env.fetch k with | .ok ms => ms | _ => [])

/-- The synchronous entry block (lines 155-176): memory hit, then the external
cache, then the single-flight guard, else become the loader.  All of this runs
before the first `await`, hence in one atomic step. -/
def entryStep (env : LoadEnv) (sh : Shared) : Shared × TaskPC :=
  match sh.mem with
  | some l => (sh, .done l)
  | none =>
    match env.cache with
    | some l => ({ sh with mem := some l }, .done l)
    | none =>
      if sh.loading then (sh, .waiting)
      else ({ sh with loading := true, starts := sh.starts + 1 }, .fetching 0 [])

/-- Resumption of the loader when the fetch of region `k` completes: an
exception runs the catch block, releases the guard and returns
`allMunicipalities || []`; otherwise the region's rows are appended and the
loop continues, and after the last region the list is stored in memory, the
guard released, and the list returned (lines 178-207). -/
def fetchStep (env : LoadEnv) (sh : Shared) (k : Nat) (acc : List Municipality) :
    Shared × TaskPC :=
  match env.fetch k with
  | .err => ({ sh with loading := false }, .done (sh.mem.getD []))
  | .ok ms =>
    if k + 1 < regionCount then (sh, .fetching (k + 1) (acc ++ ms))
    else ({ sh with mem := some (acc ++ ms), loading := false }, .done (acc ++ ms))
  | .null =>
    if k + 1 < regionCount then (sh, .fetching (k + 1) acc)
    else ({ sh with mem := some acc, loading := false }, .done acc)

/-- Resumption of a waiting task after its 100 ms sleep (lines 168-173). -/
def waitStep (sh : Shared) : Shared × TaskPC :=
  if sh.loading then (sh, .waiting) else (sh, .done (sh.mem.getD []))

/-- One scheduler step: resume task `i`; out-of-range indices and finished
tasks are no-ops. -/
def step (env : LoadEnv) (c : Config) (i : Nat) : Config :=
  match c.tasks[i]? with
  | none => c
  | some pc =>
    let r :=
      match pc with
      | .entry => entryStep env c.shared
      | .fetching k acc => fetchStep env c.shared k acc
      | .waiting => waitStep c.shared
      | .done res => (c.shared, .done res)
    { shared := r.1, tasks := c.tasks.set i r.2 }

def run (env : LoadEnv) (c : Config) : List Nat → Config
  | [] => c
  | i :: σ => run env (step env c i) σ

/-- `n` tasks invoked while neither the in-memory list nor a cache entry
exists: fresh shared state, every task at its entry block. -/
def initConfig (n : Nat) : Config :=
  { shared := { mem := none, loading := false, starts := 0 },
    tasks := List.replicate n .entry }

/-- The configuration after `k ≥ 1` of the `n` entry blocks have run (no cache
hit): one leader about to fetch region 0, `k - 1` waiters, `n - k` entries. -/
def midConfig (n k : Nat) : Config :=
  { shared := { mem := none, loading := true, starts := 1 },
    tasks := .fetching 0 [] ::
      (List.replicate (k - 1) .waiting ++ List.replicate (n - k) .entry) }

theorem run_append (env : LoadEnv) (c : Config) :
    ∀ (s1 s2 : List Nat), run env c (s1 ++ s2) = run env (run env c s1) s2
  | [], _ => rfl
  | i :: s1, s2 => by
    simp only [List.cons_append, run]
    exact run_append env (step env c i) s1 s2

theorem set_append_len {α : Type} (l1 : List α) (l2 : List α) (b : α) :
    (l1 ++ l2).set l1.length b = l1 ++ l2.set 0 b := by
  induction l1 with
  | nil => simp
  | cons a t ih => simp [ih]

/-- Running one more entry block on a mid-phase configuration. -/
theorem step_mid (env : LoadEnv) (hc : env.cache = none) (n k : Nat)
    (h1 : 1 ≤ k) (h2 : k < n) :
    step env (midConfig n k) k = midConfig n (k + 1) := by
  obtain ⟨j, rfl⟩ : ∃ j, k = j + 1 := ⟨k - 1, by omega⟩
  obtain ⟨m, hm⟩ : ∃ m, n - (j + 1) = m + 1 := ⟨n - (j + 1) - 1, by omega⟩
  have hidx : (midConfig n (j + 1)).tasks[j + 1]? = some TaskPC.entry := by
    show (TaskPC.fetching 0 [] ::
      (List.replicate (j + 1 - 1) TaskPC.waiting ++
        List.replicate (n - (j + 1)) TaskPC.entry))[j + 1]? = some TaskPC.entry
    rw [List.getElem?_cons_succ]
    rw [List.getElem?_append_right (by simp)]
    simp [hm]
  unfold step
  rw [hidx]
  have hes : entryStep env (midConfig n (j + 1)).shared =
      ((midConfig n (j + 1)).shared, TaskPC.waiting) := by
    simp [entryStep, midConfig, hc]
  simp only [hes]
  unfold midConfig
  simp only [Config.mk.injEq, true_and]
  show (TaskPC.fetching 0 [] ::
      (List.replicate (j + 1 - 1) TaskPC.waiting ++
        List.replicate (n - (j + 1)) TaskPC.entry)).set (j + 1) TaskPC.waiting =
    TaskPC.fetching 0 [] ::
      (List.replicate (j + 1 + 1 - 1) TaskPC.waiting ++
        List.replicate (n - (j + 1 + 1)) TaskPC.entry)
  rw [List.set_cons_succ]
  have hj : j + 1 - 1 = j := by omega
  have hj2 : j + 1 + 1 - 1 = j + 1 := by omega
  have hm2 : n - (j + 1 + 1) = m := by omega
  rw [hj, hj2, hm2, hm]
  have hsr : (List.replicate j TaskPC.waiting ++
      List.replicate (m + 1) TaskPC.entry).set j TaskPC.waiting =
      List.replicate j TaskPC.waiting ++
        (List.replicate (m + 1) TaskPC.entry).set 0 TaskPC.waiting := by
    have hh := set_append_len (List.replicate j TaskPC.waiting)
      (List.replicate (m + 1) TaskPC.entry) TaskPC.waiting
    rw [List.length_replicate] at hh
    exact hh
  rw [hsr]
  rw [List.replicate_succ TaskPC.entry m, List.set_cons_zero]
  rw [List.replicate_succ' j TaskPC.waiting]
  simp

/-- After the `k`-th entry block (`1 ≤ k ≤ n`, no cache), the configuration is
`midConfig n k`: exactly one loader has started. -/
theorem entry_phase (env : LoadEnv) (hc : env.cache = none) (n : Nat) :
    ∀ k, 1 ≤ k → k ≤ n → run env (initConfig n) (List.range k) = midConfig n k := by
  intro k
  induction k with
  | zero => intro h _; omega
  | succ j ih =>
    intro _ hle
    by_cases hj : j = 0
    · subst hj
      obtain ⟨m, rfl⟩ : ∃ m, n = m + 1 := ⟨n - 1, by omega⟩
      show run env (initConfig (m + 1)) [0] = midConfig (m + 1) 1
      have hidx : (initConfig (m + 1)).tasks[0]? = some TaskPC.entry := by
        simp [initConfig, List.replicate_succ]
      show step env (initConfig (m + 1)) 0 = midConfig (m + 1) 1
      unfold step
      rw [hidx]
      have hes : entryStep env (initConfig (m + 1)).shared =
          ({ mem := none, loading := true, starts := 1 }, TaskPC.fetching 0 []) := by
        simp [entryStep, initConfig, hc]
      simp only [hes]
      unfold initConfig midConfig
      simp [List.replicate_succ]
    · have hj1 : 1 ≤ j := by omega
      have hjn : j < n := by omega
      have := ih hj1 (by omega)
      rw [List.range_succ, run_append, this]
      show step env (midConfig n j) j = midConfig n (j + 1)
      exact step_mid env hc n j hj1 hjn

/-- Elements of `l.set i b` are `b` or sit at an unchanged index. -/
theorem mem_set_elim {α : Type} (l : List α) (i : Nat) (b a : α) (h : a ∈ l.set i b) :
    a = b ∨ ∃ i', i' ≠ i ∧ l[i']? = some a := by
  rw [List.mem_iff_getElem?] at h
  obtain ⟨i', hi'⟩ := h
  by_cases hii : i = i'
  · subst hii
    rw [List.getElem?_set, if_pos rfl] at hi'
    by_cases hlt : i < l.length
    · rw [if_pos hlt] at hi'
      injection hi' with hv
      exact Or.inl hv.symm
    · rw [if_neg hlt] at hi'
      exact Option.noConfusion hi'
  · right
    refine ⟨i', fun he => hii he.symm, ?_⟩
    rwa [List.getElem?_set, if_neg hii] at hi'

/-- Every task is polling or finished with result `r`. -/
def allWaitingDone (tasks : List TaskPC) (r : List Municipality) : Prop :=
  ∀ pc ∈ tasks, pc = TaskPC.waiting ∨ pc = TaskPC.done r

/-- Loading phase: the guard is held, memory is empty, exactly one fetch
sequence has started, and exactly one task — the leader — is suspended in the
fetch loop (with the accumulated catalog so far and no error yet); every other
task polls. -/
def InvB (env : LoadEnv) (c : Config) : Prop :=
  c.shared.loading = true ∧ c.shared.mem = none ∧ c.shared.starts = 1 ∧
  ∃ k : Nat, k < regionCount ∧ (∀ j, j < k → env.fetch j ≠ FetchOutcome.err) ∧
    ∃ i : Nat, c.tasks[i]? = some (TaskPC.fetching k (accUpTo env k)) ∧
      ∀ (i' : Nat) (pc : TaskPC), c.tasks[i']? = some pc → i' ≠ i → pc = TaskPC.waiting

/-- Completed phase: the guard is released, one fetch sequence was started,
and either the full catalog is in memory with every task polling or holding
it, or the load failed on some region and every task polls or holds `[]`. -/
def InvC (env : LoadEnv) (c : Config) : Prop :=
  c.shared.loading = false ∧ c.shared.starts = 1 ∧
  ((c.shared.mem = some (accUpTo env regionCount) ∧
      (∀ j, j < regionCount → env.fetch j ≠ FetchOutcome.err) ∧
      allWaitingDone c.tasks (accUpTo env regionCount)) ∨
   (c.shared.mem = none ∧ (∃ j, j < regionCount ∧ env.fetch j = FetchOutcome.err) ∧
      allWaitingDone c.tasks []))

def Inv2 (env : LoadEnv) (c : Config) : Prop := InvB env c ∨ InvC env c

theorem step_inv (env : LoadEnv) (c : Config) (i : Nat) (h : Inv2 env c) :
    Inv2 env (step env c i) := by
  unfold step
  cases htask : c.tasks[i]? with
  | none => exact h
  | some pc =>
    have hlen : i < c.tasks.length := (List.getElem?_eq_some.mp htask).1
    dsimp only
    rcases h with ⟨hload, hmem, hstarts, k, hk, herrfree, li, hli, hothers⟩ |
      ⟨hload, hstarts, hmc⟩
    · by_cases hil : i = li
      · subst hil
        have hpc : pc = TaskPC.fetching k (accUpTo env k) :=
          Option.some.inj (htask.symm.trans hli)
        subst hpc
        dsimp only
        cases hf : env.fetch k with
        | err =>
          have hfs : fetchStep env c.shared k (accUpTo env k) =
              ({ c.shared with loading := false }, TaskPC.done []) := by
            simp [fetchStep, hf, hmem]
          rw [hfs]
          right
          refine ⟨rfl, hstarts, Or.inr ⟨hmem, ⟨k, hk, hf⟩, ?_⟩⟩
          intro pc' hpc'
          rcases mem_set_elim _ _ _ _ hpc' with rfl | ⟨i', hii, hi'⟩
          · exact Or.inr rfl
          · exact Or.inl (hothers i' pc' hi' hii)
        | ok ms =>
          have hacc : accUpTo env k ++ ms = accUpTo env (k + 1) := by
            simp [accUpTo, hf]
          by_cases hkr : k + 1 < regionCount
          · have hfs : fetchStep env c.shared k (accUpTo env k) =
                (c.shared, TaskPC.fetching (k + 1) (accUpTo env (k + 1))) := by
              simp [fetchStep, hf, hkr, hacc]
            rw [hfs]
            left
            refine ⟨hload, hmem, hstarts, k + 1, hkr, ?_, i, ?_, ?_⟩
            · intro j hj
              by_cases hjk : j < k
              · exact herrfree j hjk
              · have hje : j = k := by omega
                subst hje
                rw [hf]
                simp
            · rw [List.getElem?_set, if_pos rfl, if_pos hlen]
            · intro i' pc' hi' hii
              rw [List.getElem?_set, if_neg (fun hee => hii hee.symm)] at hi'
              exact hothers i' pc' hi' hii
          · have hkeq : k + 1 = regionCount := by omega
            have hacc2 : accUpTo env k ++ ms = accUpTo env regionCount := by
              rw [← hkeq]
              exact hacc
            have hfs : fetchStep env c.shared k (accUpTo env k) =
                ({ c.shared with mem := some (accUpTo env regionCount), loading := false },
                  TaskPC.done (accUpTo env regionCount)) := by
              simp [fetchStep, hf, hkr, hacc2]
            rw [hfs]
            right
            refine ⟨rfl, hstarts, Or.inl ⟨rfl, ?_, ?_⟩⟩
            · intro j hj
              by_cases hjk : j < k
              · exact herrfree j hjk
              · have hje : j = k := by omega
                subst hje
                rw [hf]
                simp
            · intro pc' hpc'
              rcases mem_set_elim _ _ _ _ hpc' with rfl | ⟨i', hii, hi'⟩
              · exact Or.inr rfl
              · exact Or.inl (hothers i' pc' hi' hii)
        | null =>
          have hacc : accUpTo env k = accUpTo env (k + 1) := by
            simp [accUpTo, hf]
          by_cases hkr : k + 1 < regionCount
          · have hfs : fetchStep env c.shared k (accUpTo env k) =
                (c.shared, TaskPC.fetching (k + 1) (accUpTo env (k + 1))) := by
              simp [fetchStep, hf, hkr, hacc]
            rw [hfs]
            left
            refine ⟨hload, hmem, hstarts, k + 1, hkr, ?_, i, ?_, ?_⟩
            · intro j hj
              by_cases hjk : j < k
              · exact herrfree j hjk
              · have hje : j = k := by omega
                subst hje
                rw [hf]
                simp
            · rw [List.getElem?_set, if_pos rfl, if_pos hlen]
            · intro i' pc' hi' hii
              rw [List.getElem?_set, if_neg (fun hee => hii hee.symm)] at hi'
              exact hothers i' pc' hi' hii
          · have hkeq : k + 1 = regionCount := by omega
            have hacc2 : accUpTo env k = accUpTo env regionCount := by
              rw [← hkeq]
              exact hacc
            have hfs : fetchStep env c.shared k (accUpTo env k) =
                ({ c.shared with mem := some (accUpTo env regionCount), loading := false },
                  TaskPC.done (accUpTo env regionCount)) := by
              simp [fetchStep, hf, hkr, hacc2]
            rw [hfs]
            right
            refine ⟨rfl, hstarts, Or.inl ⟨rfl, ?_, ?_⟩⟩
            · intro j hj
              by_cases hjk : j < k
              · exact herrfree j hjk
              · have hje : j = k := by omega
                subst hje
                rw [hf]
                simp
            · intro pc' hpc'
              rcases mem_set_elim _ _ _ _ hpc' with rfl | ⟨i', hii, hi'⟩
              · exact Or.inr rfl
              · exact Or.inl (hothers i' pc' hi' hii)
      · have hpc : pc = TaskPC.waiting := hothers i pc htask hil
        subst hpc
        dsimp only
        have hws : waitStep c.shared = (c.shared, TaskPC.waiting) := by
          simp [waitStep, hload]
        rw [hws]
        left
        refine ⟨hload, hmem, hstarts, k, hk, herrfree, li, ?_, ?_⟩
        · rw [List.getElem?_set, if_neg hil]
          exact hli
        · intro i' pc' hi' hii
          rw [List.getElem?_set] at hi'
          by_cases hie : i = i'
          · rw [if_pos hie, if_pos hlen] at hi'
            injection hi' with h'
            exact h'.symm
          · rw [if_neg hie] at hi'
            exact hothers i' pc' hi' hii
    · rcases hmc with ⟨hmemv, herrf, hwd⟩ | ⟨hmemv, herr, hwd⟩
      · rcases hwd pc (List.getElem?_mem htask) with rfl | rfl
        · dsimp only
          have hws : waitStep c.shared = (c.shared, TaskPC.done (accUpTo env regionCount)) := by
            simp [waitStep, hload, hmemv]
          rw [hws]
          right
          refine ⟨hload, hstarts, Or.inl ⟨hmemv, herrf, ?_⟩⟩
          intro pc' hpc'
          rcases mem_set_elim _ _ _ _ hpc' with rfl | ⟨i', _, hi'⟩
          · exact Or.inr rfl
          · exact hwd pc' (List.getElem?_mem hi')
        · dsimp only
          right
          refine ⟨hload, hstarts, Or.inl ⟨hmemv, herrf, ?_⟩⟩
          intro pc' hpc'
          rcases mem_set_elim _ _ _ _ hpc' with rfl | ⟨i', _, hi'⟩
          · exact Or.inr rfl
          · exact hwd pc' (List.getElem?_mem hi')
      · rcases hwd pc (List.getElem?_mem htask) with rfl | rfl
        · dsimp only
          have hws : waitStep c.shared = (c.shared, TaskPC.done []) := by
            simp [waitStep, hload, hmemv]
          rw [hws]
          right
          refine ⟨hload, hstarts, Or.inr ⟨hmemv, herr, ?_⟩⟩
          intro pc' hpc'
          rcases mem_set_elim _ _ _ _ hpc' with rfl | ⟨i', _, hi'⟩
          · exact Or.inr rfl
          · exact hwd pc' (List.getElem?_mem hi')
        · dsimp only
          right
          refine ⟨hload, hstarts, Or.inr ⟨hmemv, herr, ?_⟩⟩
          intro pc' hpc'
          rcases mem_set_elim _ _ _ _ hpc' with rfl | ⟨i', _, hi'⟩
          · exact Or.inr rfl
          · exact hwd pc' (List.getElem?_mem hi')

theorem run_inv (env : LoadEnv) :
    ∀ (σ : List Nat) (c : Config), Inv2 env c → Inv2 env (run env c σ)
  | [], _, h => h
  | i :: σ, c, h => run_inv env σ _ (step_inv env c i h)

theorem midConfig_inv (env : LoadEnv) (n : Nat) : Inv2 env (midConfig n n) := by
  left
  refine ⟨rfl, rfl, rfl, 0, by decide, fun j hj => absurd hj (by omega), 0,
    by simp [midConfig, accUpTo], ?_⟩
  intro i' pc hi' hii
  obtain ⟨j, rfl⟩ : ∃ j, i' = j + 1 := ⟨i' - 1, by omega⟩
  rw [show (midConfig n n).tasks =
    TaskPC.fetching 0 [] :: (List.replicate (n - 1) TaskPC.waiting ++
      List.replicate (n - n) TaskPC.entry) from rfl, List.getElem?_cons_succ] at hi'
  rw [Nat.sub_self, List.replicate_zero, List.append_nil] at hi'
  have hm := List.getElem?_mem hi'
  exact (List.eq_of_mem_replicate hm)

/-- **C8.** `N` concurrent invocations of the catalog load, while neither the
in-memory list nor an external cache entry exists, execute their synchronous
entry blocks first and are then resumed in any order.  Throughout the whole
execution at most one task sits in the per-region fetch loop (single-flight);
and once every caller has completed, exactly one fetch sequence was started
and every caller holds the same result list — the full accumulated catalog
when no region fetch threw, and `[]` when the load failed. -/
theorem loadAllMunicipalities_singleFlight (env : LoadEnv) (hc : env.cache = none)
    (n : Nat) (hn : 0 < n) (τ : List Nat) :
    (∀ (s1 s2 : List Nat), List.range n ++ τ = s1 ++ s2 →
      ∀ (j1 j2 k1 k2 : Nat) (a1 a2 : List Municipality),
        (run env (initConfig n) s1).tasks[j1]? = some (TaskPC.fetching k1 a1) →
        (run env (initConfig n) s1).tasks[j2]? = some (TaskPC.fetching k2 a2) →
        j1 = j2) ∧
    ((∀ pc ∈ (run env (initConfig n) (List.range n ++ τ)).tasks, pc.isDone = true) →
      (run env (initConfig n) (List.range n ++ τ)).shared.starts = 1 ∧
      ∃ r, (∀ pc ∈ (run env (initConfig n) (List.range n ++ τ)).tasks,
          pc = TaskPC.done r) ∧
        ((∀ j, j < regionCount → env.fetch j ≠ FetchOutcome.err) →
          r = accUpTo env regionCount) ∧
        ((∃ j, j < regionCount ∧ env.fetch j = FetchOutcome.err) → r = [])) := by
  have hmid : run env (initConfig n) (List.range n) = midConfig n n :=
    entry_phase env hc n n hn (le_refl n)
  have hinv : Inv2 env (run env (initConfig n) (List.range n ++ τ)) := by
    rw [run_append, hmid]
    exact run_inv env τ _ (midConfig_inv env n)
  constructor
  · intro s1 s2 heq j1 j2 k1 k2 a1 a2 h1 h2
    by_cases hlen1 : s1.length ≤ n
    · have hmin : min s1.length n = s1.length := by omega
      have hs1 : s1 = List.range s1.length := by
        have h3 := congrArg (fun l => List.take s1.length l) heq
        simp only at h3
        rw [List.take_append_of_le_length (by simpa using hlen1), List.take_range, hmin,
          List.take_left] at h3
        exact h3.symm
      cases hk0 : s1.length with
      | zero =>
        have hnil : s1 = [] := List.length_eq_zero.mp hk0
        subst hnil
        simp only [run] at h1
        unfold initConfig at h1
        dsimp only at h1
        rw [List.getElem?_replicate] at h1
        by_cases hj : j1 < n
        · rw [if_pos hj] at h1
          injection h1 with h1'
          exact TaskPC.noConfusion h1'
        · rw [if_neg hj] at h1
          exact Option.noConfusion h1
      | succ m =>
        have hrun : run env (initConfig n) s1 = midConfig n (m + 1) := by
          conv_lhs => rw [hs1, hk0]
          exact entry_phase env hc n (m + 1) (by omega) (by omega)
        rw [hrun] at h1 h2
        have honly : ∀ j k a, (midConfig n (m + 1)).tasks[j]? =
            some (TaskPC.fetching k a) → j = 0 := by
          intro j k a hj
          by_contra hj0
          obtain ⟨j', rfl⟩ : ∃ j', j = j' + 1 := ⟨j - 1, by omega⟩
          rw [show (midConfig n (m + 1)).tasks =
            TaskPC.fetching 0 [] :: (List.replicate (m + 1 - 1) TaskPC.waiting ++
              List.replicate (n - (m + 1)) TaskPC.entry) from rfl,
            List.getElem?_cons_succ] at hj
          have hm := List.getElem?_mem hj
          rcases List.mem_append.mp hm with hmm | hmm
          · exact TaskPC.noConfusion (List.eq_of_mem_replicate hmm)
          · exact TaskPC.noConfusion (List.eq_of_mem_replicate hmm)
        rw [honly j1 k1 a1 h1, honly j2 k2 a2 h2]
    · have hns : n ≤ s1.length := by omega
      have hsplit : s1 = List.range n ++ s1.drop n := by
        have ht : s1.take n = List.range n := by
          have ht1 : (s1 ++ s2).take n = s1.take n :=
            List.take_append_of_le_length hns
          have ht2 : (List.range n ++ τ).take n = List.range n := by
            have h4 := List.take_left (List.range n) τ
            rwa [List.length_range] at h4
          rw [← ht1, ← heq, ht2]
        conv_lhs => rw [← List.take_append_drop n s1]
        rw [ht]
      have hinv1 : Inv2 env (run env (initConfig n) s1) := by
        rw [hsplit, run_append, hmid]
        exact run_inv env _ _ (midConfig_inv env n)
      rcases hinv1 with ⟨_, _, _, k, _, _, li, hli, hothers⟩ | ⟨_, _, hmc⟩
      · have e1 : j1 = li := by
          by_contra hne
          exact TaskPC.noConfusion (hothers j1 _ h1 hne)
        have e2 : j2 = li := by
          by_contra hne
          exact TaskPC.noConfusion (hothers j2 _ h2 hne)
        rw [e1, e2]
      · exfalso
        rcases hmc with ⟨_, _, hwd⟩ | ⟨_, _, hwd⟩ <;>
          rcases hwd _ (List.getElem?_mem h1) with hcc | hcc <;>
            exact TaskPC.noConfusion hcc
  · intro hdone
    rcases hinv with ⟨_, _, _, k, hk, _, li, hli, _⟩ | ⟨hload, hstarts, hmc⟩
    · have hd := hdone _ (List.getElem?_mem hli)
      simp [TaskPC.isDone] at hd
    · refine ⟨hstarts, ?_⟩
      rcases hmc with ⟨hmemv, herrf, hwd⟩ | ⟨hmemv, herr, hwd⟩
      · refine ⟨accUpTo env regionCount, ?_, fun _ => rfl, ?_⟩
        · intro pc hpc
          rcases hwd pc hpc with rfl | rfl
          · have hd := hdone _ hpc
            simp [TaskPC.isDone] at hd
          · rfl
        · intro hh
          obtain ⟨j, hj, hje⟩ := hh
          exact absurd hje (herrf j hj)
      · refine ⟨[], ?_, ?_, fun _ => rfl⟩
        · intro pc hpc
          rcases hwd pc hpc with rfl | rfl
          · have hd := hdone _ hpc
            simp [TaskPC.isDone] at hd
          · rfl
        · intro hnoerr
          obtain ⟨j, hj, hje⟩ := herr
          exact absurd hje (hnoerr j hj)

/-- A concrete failing-free environment for the witness. -/
def demoLoadEnv : LoadEnv := { cache := none, fetch := fun _ => FetchOutcome.ok [] }

/-- Witness: two concurrent callers, the leader driven through all 14 regions,
then the waiter resumed — exactly one fetch sequence was started. -/
theorem loadAllMunicipalities_singleFlight_witness :
    (run demoLoadEnv (initConfig 2)
      (List.range 2 ++ (List.replicate 14 0 ++ [1]))).shared.starts = 1 :=
  ((loadAllMunicipalities_singleFlight demoLoadEnv rfl 2 (by omega)
      (List.replicate 14 0 ++ [1])).2 (by decide)).1

end SingleFlight

end Ruian
